import Mathlib

/-! Dependency resolution of the CLI package manager (`dependency.go`, `package.go`)

A shallow embedding of the version model (`getPackageVersions`), the
constraint resolver (`getLatestVersionForConstraints`), the dependency map
(`addToDependencies`), the checkout resolver (`checkoutRef`), the dependency
walker (`getDependenciesRecursive`) and the materializer
(`installProjectPackages`).

Conventions.
* Go `int` is the 64-bit two's-complement integer and `uint64` the 64-bit
  unsigned integer; arithmetic that can wrap is reduced explicitly.
* `github.com/Masterminds/semver` is an external library.  Its version parser,
  constraint parser and the two matching predicates are the fields of
  `SemverLib`; every general theorem holds for an arbitrary such library.
* The repository access of `getPackageVersions` (clone, fetch, tag listing) is
  represented by its outcome, the list of tag names.
* File system, git and manifest reads are collaborators given by their results
  (`GitEnv`, `WalkEnv`, `InstallEnv`); the calls made are recorded in a log.
* The walker starts one goroutine per requirement and waits for it with
  `wg.Wait()` before it looks at `errChan`, so the requirements run one after
  the other. `errChan` is unbuffered: a goroutine that sends on it waits for a
  receiver, and the only receiver is behind `wg.Wait()`, which waits for the
  goroutine to end. Such a call never returns (`Outcome.blocked`).
* A Go map is a list of entries in the order in which `range` visits it.
-/

namespace AkamaiCli

/-! ## Constants (`dependency.go`, lines 33-51) -/

/-- Tier number of `dev` (`iota + 1`). -/
def ReleaseTypeDev : Int := 1

/-- Tier number of `alpha`. -/
def ReleaseTypeAlpha : Int := 2

/-- Tier number of `beta`. -/
def ReleaseTypeBeta : Int := 3

/-- Tier number of `rc`. -/
def ReleaseTypeRc : Int := 4

/-- Tier number of `stable`. -/
def ReleaseTypeStable : Int := 5

/-- Maximum recursion depth of the walker. -/
def MaxDepth : Int := 6

/-- The map `ReleaseTypes`; a key that is not in a Go map reads as the zero
value, the empty string. -/
def ReleaseTypes (k : Int) : String :=
  if k = ReleaseTypeDev then "dev"
  else if k = ReleaseTypeAlpha then "alpha"
  else if k = ReleaseTypeBeta then "beta"
  else if k = ReleaseTypeRc then "rc"
  else if k = ReleaseTypeStable then ""
  else ""

/-! ## Machine integers -/

/-- Two to the power 64. -/
def twoPow64 : Nat := 18446744073709551616

/-- Largest Go `int`. -/
def maxInt64 : Int := 9223372036854775807

/-- Smallest Go `int`. -/
def minInt64 : Int := -9223372036854775808

/-- Result of a Go `int` operation whose mathematical value is `x`. -/
def wrapInt64 (x : Int) : Int :=
  (x + 9223372036854775808) % 18446744073709551616 - 9223372036854775808

/-- The conversion `uint64(x)` of a Go `int`. -/
def toUint64 (x : Int) : Nat :=
  (x % 18446744073709551616).toNat

/-! ## Data model -/

/-- The fields of `semver.Version` that the program reads. -/
structure SemVer where
  major : Nat
  minor : Nat
  patch : Nat
  pre : String
  metadata : String
  deriving DecidableEq, Repr

/-- The method `Version.String`: `major.minor.patch[-pre][+metadata]`. -/
def SemVer.String (v : SemVer) : String :=
  let core := toString v.major ++ "." ++ toString v.minor ++ "." ++ toString v.patch
  let withPre := if v.pre = "" then core else core ++ "-" ++ v.pre
  if v.metadata = "" then withPre else withPre ++ "+" ++ v.metadata

/-- The struct `version`. -/
structure version where
  semver : SemVer
  name : String
  canonical : Nat
  stability : Int
  deriving DecidableEq, Repr

/-- The type `versionList`. -/
abbrev versionList := List version

/-- The operations of the semantic-version library used by the program, over
its constraint type `C`.  `Matches c v` is `true` when `c.Matches(v)` returns a
nil error. -/
structure SemverLib (C : Type) where
  NewVersion : String → Option SemVer
  NewConstraint : String → Except String C
  Matches : C → SemVer → Bool
  MatchesAny : C → C → Bool

/-! ## Standard-library helpers -/

/-- The call `strings.Split(s, ".")` on the characters of `s`; the empty
string gives one empty segment. -/
def splitDots : List Char → List (List Char)
  | [] => [[]]
  | c :: cs =>
    if c = '.' then [] :: splitDots cs
    else
      match splitDots cs with
      | [] => [[c]]
      | p :: ps => (c :: p) :: ps

/-- The call `strings.ToLower` (prerelease text is ASCII). -/
def toLower (s : List Char) : List Char := s.map Char.toLower

/-- The call `strings.Contains(s, "-")`. -/
def containsDash (s : String) : Bool := s.data.elem '-'

/-- Value of a decimal digit. -/
def digitVal (c : Char) : Option Nat :=
  if '0' ≤ c ∧ c ≤ '9' then some (c.toNat - 48) else none

/-- Reads a run of decimal digits, most significant first. -/
def parseDigits : List Char → Nat → Option Nat
  | [], acc => some acc
  | c :: cs, acc =>
    match digitVal c with
    | none => none
    | some d => parseDigits cs (acc * 10 + d)

/-- Outcome of `strconv.ParseUint(s, 10, 64)`: a character that is not a
decimal digit, a value that does not fit 64 bits, or the value read. -/
inductive UintResult where
  | malformed
  | outOfRange
  | value (n : Nat)
  deriving DecidableEq, Repr

/-- The loop of `strconv.ParseUint` in base 10 with 64 bits, on a non-empty
string: the characters are read from the left, and the loop returns at the
first character that is not a digit, or at the first digit with which the
value no longer fits 64 bits (`n >= cutoff` or `n1 > maxVal`), whichever
comes first. -/
def parseUint : List Char → Nat → UintResult
  | [], acc => .value acc
  | c :: cs, acc =>
    match digitVal c with
    | none => .malformed
    | some d =>
      if acc ≥ 1844674407370955162 then .outOfRange
      else if acc * 10 + d > 18446744073709551615 then .outOfRange
      else parseUint cs (acc * 10 + d)

/-- The value returned by `strconv.Atoi` (its error is discarded by the
caller): `0` on a syntax error, the nearest bound of the `int` range on a
range error, which `ParseUint` reports as soon as the digits read so far
exceed 64 bits, before it looks at the rest of the string. -/
def Atoi (s : List Char) : Int :=
  match s with
  | [] => 0
  | '-' :: ds =>
    if ds = [] then 0
    else
      match parseUint ds 0 with
      | .malformed => 0
      | .outOfRange => minInt64
      | .value n => if (n : Int) > 9223372036854775808 then minInt64 else -(n : Int)
  | '+' :: ds =>
    if ds = [] then 0
    else
      match parseUint ds 0 with
      | .malformed => 0
      | .outOfRange => maxInt64
      | .value n => if (n : Int) > maxInt64 then maxInt64 else (n : Int)
  | ds =>
    match parseUint ds 0 with
    | .malformed => 0
    | .outOfRange => maxInt64
    | .value n => if (n : Int) > maxInt64 then maxInt64 else (n : Int)

/-! ## Version model (`getPackageVersions`, lines 329-371) -/

/-- The variable `v` of the loop body: the second prerelease segment read by
`Atoi` when there is one, otherwise `0` (lines 337-340). -/
def prereleaseOrdinal (pre : String) : Int :=
  match splitDots pre.data with
  | _ :: p1 :: _ => Atoi p1
  | _ => 0

/-- The `switch` on the lower-cased first prerelease segment (lines 342-353). -/
def stabilityOf (pre : String) : Int :=
  let p0 := toLower ((splitDots pre.data).headD [])
  if p0 = [] then ReleaseTypeStable
  else if p0 = "alpha".data then ReleaseTypeAlpha
  else if p0 = "beta".data then ReleaseTypeBeta
  else if p0 = "rc".data then ReleaseTypeRc
  else ReleaseTypeDev

/-- The candidate appended for a parsed tag (lines 355-367). -/
def mkVersion (ver : SemVer) : version :=
  let stability := stabilityOf ver.pre
  let prerelease := wrapInt64 (stability * 10 + prereleaseOrdinal ver.pre)
  { name := ver.String
    canonical := ((ver.major * 100000) % twoPow64 + (ver.minor * 10000) % twoPow64
      + (ver.patch * 1000) % twoPow64 + toUint64 prerelease) % twoPow64
    semver := ver
    stability := stability }

/-- The loop over the tags (lines 329-368): a tag that does not parse is
skipped with `continue`. -/
def collectVersions {C : Type} (lib : SemverLib C) : List String → versionList
  | [] => []
  | tag :: rest =>
    match lib.NewVersion tag with
    | none => collectVersions lib rest
    | some ver => mkVersion ver :: collectVersions lib rest

/-- One insertion step of the sort with
`less(l, r) = versions[l].canonical > versions[r].canonical`. -/
def insertDesc (x : version) : versionList → versionList
  | [] => [x]
  | y :: ys => if x.canonical > y.canonical then x :: y :: ys else y :: insertDesc x ys

/-- The call `sort.Slice(versions, less)` of line 370, as an insertion sort.
`sort.Slice` is not stable: it returns a rearrangement of the slice ordered by
`less`, and on longer slices it may place candidates with equal keys in
another order than this insertion sort does. The theorems below use the
ordering by key and the rearrangement only, and the lists that are evaluated
hold at most three candidates, where `sort.Slice` is an insertion sort too. -/
def sortSlice (xs : versionList) : versionList :=
  xs.foldl (fun acc x => insertDesc x acc) []

/-- The candidate list built by `getPackageVersions` from the tags of the
repository. -/
def getPackageVersions {C : Type} (lib : SemverLib C) (tags : List String) : versionList :=
  sortSlice (collectVersions lib tags)

/-! ## Constraint resolver (`getLatestVersionForConstraints`, lines 251-287) -/

/-- Errors returned by the resolver. -/
inductive ResolveError (C : Type) where
  | parse (msg : String)
  | mutuallyExclusive (c1 c2 : C)
  | noVersionFound
  deriving DecidableEq, Repr

/-- The expression handed to `semver.NewConstraint` (lines 256-258). -/
def adjustConstraint (stability : Int) (constraint : String) : String :=
  if stability < ReleaseTypeStable ∧ containsDash constraint = false then
    constraint ++ ("-" ++ ReleaseTypes stability)
  else constraint

/-- The first loop (lines 254-264): parse every adjusted expression, stop at
the first parse error. -/
def parseConstraints {C : Type} (lib : SemverLib C) (stability : Int) :
    List String → Except String (List C)
  | [] => .ok []
  | constraint :: rest =>
    match lib.NewConstraint (adjustConstraint stability constraint) with
    | .error e => .error e
    | .ok c =>
      match parseConstraints lib stability rest with
      | .error e => .error e
      | .ok cs => .ok (c :: cs)

/-- The loop over the candidates (lines 274-282): the first candidate at or
above the floor that `c1` matches. -/
def scanVersions {C : Type} (lib : SemverLib C) (c1 : C) (stability : Int) :
    versionList → Option version
  | [] => none
  | v :: vs =>
    if v.stability ≥ stability ∧ lib.Matches c1 v.semver = true then some v
    else scanVersions lib c1 stability vs

/-- The loop over `j, c2` (lines 268-283) for a fixed `i, c1`; `none` when the
loop ends without a `return`. -/
def innerLoop {C : Type} (lib : SemverLib C) (versions : versionList) (stability : Int)
    (i : Nat) (c1 : C) : Nat → List C → Option (Except (ResolveError C) version)
  | _, [] => none
  | j, c2 :: rest =>
    if i ≠ j ∧ lib.MatchesAny c1 c2 = false then
      some (.error (.mutuallyExclusive c1 c2))
    else
      match scanVersions lib c1 stability versions with
      | some v => some (.ok v)
      | none => innerLoop lib versions stability i c1 (j + 1) rest

/-- The loop over `i, c1` (lines 267-284); `all` is the whole constraint
slice. -/
def outerLoop {C : Type} (lib : SemverLib C) (versions : versionList) (stability : Int)
    (all : List C) : Nat → List C → Option (Except (ResolveError C) version)
  | _, [] => none
  | i, c1 :: rest =>
    match innerLoop lib versions stability i c1 0 all with
    | some r => some r
    | none => outerLoop lib versions stability all (i + 1) rest

/-- The second part of `getLatestVersionForConstraints` (lines 266-286), run
on the parsed constraints. -/
def resolveConstraints {C : Type} (lib : SemverLib C) (constraints : List C)
    (versions : versionList) (stability : Int) : Except (ResolveError C) version :=
  match outerLoop lib versions stability constraints 0 constraints with
  | some r => r
  | none => .error .noVersionFound

/-- The function `getLatestVersionForConstraints`. -/
def getLatestVersionForConstraints {C : Type} (lib : SemverLib C)
    (versionConstraints : List String) (versions : versionList) (stability : Int) :
    Except (ResolveError C) version :=
  match parseConstraints lib stability versionConstraints with
  | .error e => .error (.parse e)
  | .ok constraints => resolveConstraints lib constraints versions stability

/-! ## A concrete library instance

`sampleLib` is a small executable instance of `SemverLib`, used to run the
resolver on concrete tags and expressions.  It reads tags of the form
`[v]major[.minor[.patch]][-pre][+meta]` and constraint expressions of the form
`[=|^|~]major[.minor[.patch]][-pre]`: an exact version, a caret range (up to
the next major version, or the next minor or patch version under 1.0.0 and
0.1.0) and a tilde range (up to the next minor version, or the next major
version when only the major is written). -/

/-- Splits at the first occurrence of `sep`. -/
def splitFirst (sep : Char) : List Char → List Char × Option (List Char)
  | [] => ([], none)
  | c :: cs =>
    if c = sep then ([], some cs)
    else ((c :: (splitFirst sep cs).1), (splitFirst sep cs).2)

/-- Characters allowed in a prerelease or metadata identifier. -/
def isIdentChar (c : Char) : Bool := c.isAlphanum || c = '-'

/-- Dot-separated non-empty identifiers. -/
def validIdents (s : List Char) : Bool :=
  (splitDots s).all (fun p => !p.isEmpty && p.all isIdentChar)

/-- An optional identifier list is absent or valid. -/
def validOptIdents : Option (List Char) → Bool
  | none => true
  | some s => validIdents s

/-- A non-empty decimal number that fits 64 bits. -/
def parseNumber (s : List Char) : Option Nat :=
  if s.isEmpty then none
  else
    match parseDigits s 0 with
    | none => none
    | some n => if n < twoPow64 then some n else none

/-- Reads `major[.minor[.patch]]`; also gives the number of parts written. -/
def parseCore (s : List Char) : Option (Nat × Nat × Nat × Nat) :=
  match splitDots s with
  | [a] =>
    match parseNumber a with
    | some x => some (x, 0, 0, 1)
    | none => none
  | [a, b] =>
    match parseNumber a, parseNumber b with
    | some x, some y => some (x, y, 0, 2)
    | _, _ => none
  | [a, b, c] =>
    match parseNumber a, parseNumber b, parseNumber c with
    | some x, some y, some z => some (x, y, z, 3)
    | _, _, _ => none
  | _ => none

/-- Drops one leading `v`. -/
def dropV : List Char → List Char
  | 'v' :: r => r
  | r => r

/-- Tag parser of `sampleLib`. -/
def sampleNewVersion (tag : String) : Option SemVer :=
  let body := (splitFirst '+' tag.data).1
  let metadata := (splitFirst '+' tag.data).2
  let core := (splitFirst '-' body).1
  let pre := (splitFirst '-' body).2
  if validOptIdents metadata && validOptIdents pre then
    match parseCore (dropV core) with
    | some (x, y, z, _) =>
      some { major := x, minor := y, patch := z,
             pre := String.mk (pre.getD []), metadata := String.mk (metadata.getD []) }
    | none => none
  else none

/-- Constraints of `sampleLib`: an operator (`=`, `^` or `~`), a possibly
partial version and an optional prerelease. -/
structure SampleConstraint where
  op : Char
  major : Nat
  minor : Nat
  patch : Nat
  parts : Nat
  pre : List Char
  deriving DecidableEq, Repr

/-- Splits a leading operator off an expression; no operator means `=`. -/
def splitOp : List Char → Char × List Char
  | '^' :: r => ('^', r)
  | '~' :: r => ('~', r)
  | '=' :: r => ('=', r)
  | r => ('=', r)

/-- Constraint parser of `sampleLib`. -/
def sampleNewConstraint (s : String) : Except String SampleConstraint :=
  let op := (splitOp s.data).1
  let rest := (splitOp s.data).2
  let core := (splitFirst '-' rest).1
  let pre := (splitFirst '-' rest).2
  if validOptIdents pre then
    match parseCore core with
    | some (x, y, z, n) =>
      .ok { op := op, major := x, minor := y, patch := z, parts := n, pre := pre.getD [] }
    | none => .error ("improper constraint: " ++ s)
  else .error ("improper constraint: " ++ s)

/-- Strict lexicographic order on `(major, minor, patch)`. -/
def tripleLt (a b : Nat × Nat × Nat) : Bool :=
  decide (a.1 < b.1) ||
    (decide (a.1 = b.1) &&
      (decide (a.2.1 < b.2.1) || (decide (a.2.1 = b.2.1) && decide (a.2.2 < b.2.2))))

/-- Lexicographic `≤` on prerelease text. -/
def preLe : List Char → List Char → Bool
  | [], _ => true
  | _ :: _, [] => false
  | a :: as, b :: bs => decide (a.toNat < b.toNat) || (decide (a = b) && preLe as bs)

/-- Lower bound of a constraint. -/
def SampleConstraint.lo (c : SampleConstraint) : Nat × Nat × Nat :=
  (c.major, c.minor, c.patch)

/-- Exclusive upper bound of a constraint. -/
def SampleConstraint.hi (c : SampleConstraint) : Nat × Nat × Nat :=
  if c.op = '^' then
    if c.major > 0 then (c.major + 1, 0, 0)
    else if c.minor > 0 then (0, c.minor + 1, 0)
    else (0, 0, c.patch + 1)
  else if c.op = '~' then
    if c.parts ≥ 2 then (c.major, c.minor + 1, 0) else (c.major + 1, 0, 0)
  else (c.major, c.minor, c.patch + 1)

/-- Matching predicate of `sampleLib`.  An exact constraint matches its own
version only.  A caret or tilde constraint matches the versions from its lower
bound up to its exclusive upper bound; a prerelease version is matched only
when the constraint carries a prerelease, has the same major.minor.patch and
its prerelease is not above that of the version. -/
def sampleMatches (c : SampleConstraint) (v : SemVer) : Bool :=
  let t := (v.major, v.minor, v.patch)
  if c.op = '=' then decide (t = c.lo) && decide (v.pre.data = c.pre)
  else
    !tripleLt t c.lo && tripleLt t c.hi &&
      (v.pre.data.isEmpty || (!c.pre.isEmpty && decide (t = c.lo) && preLe c.pre v.pre.data))

/-- Two constraints of `sampleLib` admit a common version range. -/
def sampleMatchesAny (a b : SampleConstraint) : Bool :=
  tripleLt a.lo b.hi && tripleLt b.lo a.hi

/-- The concrete library instance. -/
def sampleLib : SemverLib SampleConstraint where
  NewVersion := sampleNewVersion
  NewConstraint := sampleNewConstraint
  Matches := sampleMatches
  MatchesAny := sampleMatchesAny

/-! ## Repository access of `getPackageVersions` (lines 289-327 and 371) -/

/-- Outcome of the repository access that precedes the loop over the tags:
either an early `return` with an error (cache path, clone, fetch or tag
listing failed), or the tag names together with the error value of
`tagRefs.ForEach`, which is the `err` returned at line 371. -/
inductive TagListing where
  | failed (err : String)
  | listed (tags : List String) (forEachErr : Option String)
  deriving DecidableEq, Repr

/-- Both results of `getPackageVersions(repoURL)`, from the outcome of the
repository access.  The `err` declared inside the loop body (line 332) is a
new variable, so a tag that does not parse leaves the returned `err` alone. -/
def getPackageVersionsFrom {C : Type} (lib : SemverLib C) : TagListing → versionList × Option String
  | .failed e => ([], some e)
  | .listed tags forEachErr => (getPackageVersions lib tags, forEachErr)

/-! ## Dependency map (`pkgDep`, `deps`, `addToDependencies`, lines 61-68, 188-197) -/

/-- The struct `pkgDep`. -/
structure pkgDep where
  versions : versionList
  constraints : List String
  deriving DecidableEq, Repr

/-- The map type `deps`, as the list of its entries (a key occurs at most once
in a list built by `storeDep`). -/
abbrev deps := List (String × pkgDep)

/-- The map read `dependencies[key]` with its `ok` flag. -/
def lookupDep : deps → String → Option pkgDep
  | [], _ => none
  | (k, v) :: rest, key => if k = key then some v else lookupDep rest key

/-- The map write `dependencies[key] = value`. -/
def storeDep : deps → String → pkgDep → deps
  | [], key, value => [(key, value)]
  | (k, v) :: rest, key, value =>
    if k = key then (key, value) :: rest else (k, v) :: storeDep rest key value

/-- The function `addToDependencies`, on the map it updates. -/
def addToDependencies (dependencies : deps) (packageDir : String) (versions : versionList)
    (constraint : String) : deps :=
  let previous :=
    match lookupDep dependencies packageDir with
    | some d => d.constraints
    | none => []
  storeDep dependencies packageDir
    { versions := versions, constraints := previous ++ [constraint] }

/-! ## Checkout resolver (`checkoutRef`, lines 199-232) -/

/-- Outcomes of the git operations on the working copies: `none` is a nil
error. -/
structure GitEnv where
  PlainOpen : String → Option String
  Worktree : String → Option String
  checkoutTag : String → String → Option String
  checkoutBranch : String → String → Option String
  checkoutHash : String → String → Option String

/-- The three forms of `wt.Checkout`. -/
inductive CheckoutAttempt where
  | tag
  | branch
  | hash
  deriving DecidableEq, Repr

/-- The function `checkoutRef`: the checkout attempts it makes, in order, and
the error it returns. -/
def checkoutRef (git : GitEnv) (ref : String) (packageDir : String) :
    List CheckoutAttempt × Option String :=
  match git.PlainOpen packageDir with
  | some e => ([], some e)
  | none =>
    match git.Worktree packageDir with
    | some e => ([], some e)
    | none =>
      match git.checkoutTag packageDir ref with
      | none => ([.tag], none)
      | some _ =>
        match git.checkoutBranch packageDir ref with
        | none => ([.tag, .branch], none)
        | some _ =>
          match git.checkoutHash packageDir ref with
          | none => ([.tag, .branch, .hash], none)
          | some e => ([.tag, .branch, .hash], some e)

/-! ## Manifest (`package.go`, lines 32-55) and runtimes (`isRuntime`, lines 234-249) -/

/-- The fields of `commandPackage` that the resolver reads; `Requirements` is
the map in the order in which the `range` loop visits it. -/
structure commandPackage where
  Name : String
  Requirements : List (String × String)
  MinimumStability : String
  deriving DecidableEq, Repr

/-- The method `GetMinimumStability`. -/
def commandPackage.GetMinimumStability (c : commandPackage) : Int :=
  let s := toLower c.MinimumStability.data
  if s = "rc".data then ReleaseTypeRc
  else if s = "beta".data then ReleaseTypeBeta
  else if s = "alpha".data then ReleaseTypeAlpha
  else if s = "dev".data then ReleaseTypeDev
  else ReleaseTypeStable

/-- The function `isRuntime`. -/
def isRuntime (val : String) : Bool :=
  let s := toLower val.data
  if s = "python".data then true
  else if s = "go".data then true
  else if s = "node".data then true
  else if s = "ruby".data then true
  else if s = "php".data then true
  else false

/-! ## Dependency walker (`getDependenciesRecursive`, lines 109-186) -/

/-- Calls made by the walker and the materializer, in the order they happen. -/
inductive Event where
  | enter (name : String) (depth : Int)
  | tooDeep (name : String)
  | fetch (repoURL : String)
  | add (packageDir : String) (constraint : String)
  | resolve (constraints : List String) (stability : Int)
  | checkout (ref : String) (dir : String)
  | read (packageDir : String)
  | send (err : String)
  | clone (installPath : String) (packageDir : String)
  deriving DecidableEq, Repr

/-- The collaborators of the walker.  `githubize`, `getPackageCachePath` and
the path arithmetic `filepath.Join(dest, strings.TrimSuffix(filepath.Base(repoURL), ".git"))`
are given by their results; `readPackage packageDir ref` is the manifest read
from the working copy `packageDir` after `ref` was checked out. -/
structure WalkEnv (C : Type) where
  lib : SemverLib C
  getPackageCachePath : Except String String
  githubize : String → String
  packageDir : String → String → String
  listTags : String → TagListing
  git : GitEnv
  readPackage : String → String → Except String commandPackage

/-- The package-level variables `depth` and `dependencies`, and the calls made
so far. -/
structure WalkState where
  depth : Int
  dependencies : deps
  log : List Event
  deriving DecidableEq, Repr

/-- How a call of the walker ends: it returns an error value (`none` is nil),
or it never returns because a goroutine is blocked on `errChan` while its
caller is blocked in `wg.Wait()`; `outOfFuel` marks a run of the model that
was given too little fuel. -/
inductive Outcome where
  | returned (err : Option String)
  | blocked
  | outOfFuel
  deriving DecidableEq, Repr

/-- How the goroutine of one requirement ends: it finishes without a send
(with the values of the captured variables `pkg` and `err`), it reaches a
`errChan <- e`, or the nested call never returns. -/
inductive BodyResult where
  | done (st : WalkState) (pkg : commandPackage) (err : Option String)
  | sent (st : WalkState) (e : String)
  | stuck (st : WalkState) (o : Outcome)
  deriving DecidableEq, Repr

/-- Appends calls to the log of a state. -/
def WalkState.record (st : WalkState) (evs : List Event) : WalkState :=
  { st with log := st.log ++ evs }

/-- The error created at line 113. -/
def errTooDeep : String := "dependency tree too deep, unable to resolve"

/-- Lines 147-170 of the goroutine, once `versions` is known.  `pkg` is the
variable captured from the enclosing call: line 161 assigns to it. `rec` is
the recursive call. -/
def afterVersions {C : Type} (env : WalkEnv C)
    (rec : WalkState → commandPackage → WalkState × Outcome) (packageDir : String)
    (st : WalkState) (pkg : commandPackage) (err : Option String) (constraint : String)
    (versions : versionList) : BodyResult :=
  let st1 : WalkState :=
    { st with
      dependencies := addToDependencies st.dependencies packageDir versions constraint
      log := st.log ++ [.add packageDir constraint,
        .resolve [constraint] pkg.GetMinimumStability] }
  let ref :=
    match getLatestVersionForConstraints env.lib [constraint] versions pkg.GetMinimumStability with
    | .error _ => constraint
    | .ok v => v.name
  let st2 := st1.record [.checkout ref packageDir]
  match (checkoutRef env.git ref packageDir).2 with
  | some e => .sent (st2.record [.send e]) e
  | none =>
    let st3 := st2.record [.read packageDir]
    match env.readPackage packageDir ref with
    | .error e => .sent (st3.record [.send e]) e
    | .ok pkg1 =>
      match rec st3 pkg1 with
      | (st4, .returned (some e)) => .sent (st4.record [.send e]) e
      | (st4, .returned none) => .done st4 pkg1 err
      | (st4, o) => .stuck st4 o

/-- The goroutine started for one requirement (lines 129-171).  `err` is the
variable of the enclosing call, which line 138 assigns. -/
def requirementBody {C : Type} (env : WalkEnv C)
    (rec : WalkState → commandPackage → WalkState × Outcome) (dest : String)
    (st : WalkState) (pkg : commandPackage) (err : Option String)
    (dep : String) (constraint : String) : BodyResult :=
  let repoURL := env.githubize dep
  let packageDir := env.packageDir dest repoURL
  match lookupDep st.dependencies packageDir with
  | none =>
    let st1 := st.record [.fetch repoURL]
    match getPackageVersionsFrom env.lib (env.listTags repoURL) with
    | (_, some e) => .sent (st1.record [.send e]) e
    | (versions, none) => afterVersions env rec packageDir st1 pkg none constraint versions
  | some d => afterVersions env rec packageDir st pkg err constraint d.versions

/-- The loop over the requirements (lines 123-183).  After `wg.Wait()` the
goroutine has ended: if it ended without a send, the channel is empty and the
`select` takes its `default` branch; if it reached a send on the unbuffered
channel, it waits for a receiver while the only receiver waits in `wg.Wait()`
for the deferred `wg.Done()`, so neither continues. -/
def requirementsLoop {C : Type} (env : WalkEnv C)
    (rec : WalkState → commandPackage → WalkState × Outcome) (dest : String) :
    List (String × String) → WalkState → commandPackage → Option String → WalkState × Outcome
  | [], st, _, err => (st, .returned err)
  | (dep, constraint) :: rest, st, pkg, err =>
    if isRuntime dep = true then requirementsLoop env rec dest rest st pkg err
    else
      match requirementBody env rec dest st pkg err dep constraint with
      | .done st1 pkg1 err1 => requirementsLoop env rec dest rest st1 pkg1 err1
      | .sent st1 _ => (st1, .blocked)
      | .stuck st1 o => (st1, o)

/-- The state after `depth++` (line 111). -/
def enterCall (st : WalkState) (pkg : commandPackage) : WalkState :=
  { st with depth := st.depth + 1, log := st.log ++ [.enter pkg.Name (st.depth + 1)] }

/-- The function `getDependenciesRecursive` with a bound on the nesting of
calls that the model follows. -/
def getDependenciesRecursiveFuel {C : Type} (env : WalkEnv C) :
    Nat → WalkState → commandPackage → WalkState × Outcome
  | 0, st, pkg =>
    if (enterCall st pkg).depth > MaxDepth then
      ((enterCall st pkg).record [.tooDeep pkg.Name], .returned (some errTooDeep))
    else
      match env.getPackageCachePath with
      | .error e => (enterCall st pkg, .returned (some e))
      | .ok _ => (enterCall st pkg, .outOfFuel)
  | fuel + 1, st, pkg =>
    if (enterCall st pkg).depth > MaxDepth then
      ((enterCall st pkg).record [.tooDeep pkg.Name], .returned (some errTooDeep))
    else
      match env.getPackageCachePath with
      | .error e => (enterCall st pkg, .returned (some e))
      | .ok dest =>
        requirementsLoop env (getDependenciesRecursiveFuel env fuel) dest pkg.Requirements
          (enterCall st pkg) pkg none

/-- The function `getDependenciesRecursive`: a call that passes the depth check
has `depth ≤ MaxDepth`, and every nested call raises `depth`, so
`MaxDepth - depth` levels of nesting are enough. -/
def getDependenciesRecursive {C : Type} (env : WalkEnv C) (st : WalkState)
    (pkg : commandPackage) : WalkState × Outcome :=
  getDependenciesRecursiveFuel env (MaxDepth - st.depth).toNat st pkg

/-! ## Materializer (`installProjectPackages`, lines 70-107) -/

/-- Errors returned by `installProjectPackages`. -/
inductive InstallError (C : Type) where
  | msg (s : String)
  | resolve (e : ResolveError C)
  deriving DecidableEq, Repr

/-- How a call of `installProjectPackages` ends. -/
inductive InstallOutcome (C : Type) where
  | returned (err : Option (InstallError C))
  | blocked
  | outOfFuel
  deriving DecidableEq, Repr

/-- The further collaborators of the materializer; `installPath basePath
packageDir` is `filepath.Join(basePath, filepath.Base(packageDir))`. -/
structure InstallEnv (C : Type) where
  walk : WalkEnv C
  getProjectRoot : Except String String
  basePath : String → String
  RemoveAll : String → Option String
  installPath : String → String → String
  PlainClone : String → String → Option String

/-- The loop of lines 86-104 over the entries of `dependencies`, in the order
in which `range` visits them: the body ends with `return err`. -/
def installLoop {C : Type} (env : InstallEnv C) (basePath : String) (stability : Int)
    (log : List Event) : deps → List Event × Option (InstallError C)
  | [] => (log, none)
  | (packageDir, requirement) :: _ =>
    let installPath := env.installPath basePath packageDir
    match env.PlainClone installPath ("file://" ++ packageDir) with
    | some e => (log ++ [.clone installPath packageDir], some (.msg e))
    | none =>
      match getLatestVersionForConstraints env.walk.lib requirement.constraints
          requirement.versions stability with
      | .error e =>
        (log ++ [.clone installPath packageDir, .resolve requirement.constraints stability],
          some (.resolve e))
      | .ok v =>
        (log ++ [.clone installPath packageDir, .resolve requirement.constraints stability,
            .checkout v.name installPath],
          match (checkoutRef env.walk.git v.name installPath).2 with
          | some e => some (.msg e)
          | none => none)

/-- The function `installProjectPackages`. -/
def installProjectPackages {C : Type} (env : InstallEnv C) (st : WalkState)
    (pkg : commandPackage) : WalkState × InstallOutcome C :=
  match getDependenciesRecursive env.walk st pkg with
  | (st1, .blocked) => (st1, .blocked)
  | (st1, .outOfFuel) => (st1, .outOfFuel)
  | (st1, .returned (some e)) => (st1, .returned (some (.msg e)))
  | (st1, .returned none) =>
    match env.getProjectRoot with
    | .error e => (st1, .returned (some (.msg e)))
    | .ok root =>
      match env.RemoveAll (env.basePath root) with
      | some e => (st1, .returned (some (.msg e)))
      | none =>
        let r := installLoop env (env.basePath root) pkg.GetMinimumStability st1.log
          st1.dependencies
        ({ st1 with log := r.1 }, .returned r.2)

/-! ## Concrete collaborators

Small executable environments on which the walker and the materializer are
run: every git operation succeeds, a repository is known by its tag list and a
working copy by its manifest. -/

/-- Looks a key up in a table. -/
def tableLookup {α : Type} : List (String × α) → String → Option α
  | [], _ => none
  | (k, v) :: rest, key => if k = key then some v else tableLookup rest key

/-- Git operations that all succeed. -/
def sampleGit : GitEnv where
  PlainOpen := fun _ => none
  Worktree := fun _ => none
  checkoutTag := fun _ _ => none
  checkoutBranch := fun _ _ => none
  checkoutHash := fun _ _ => none

/-- A walker environment over `sampleLib`: the cache directory is `cache`, the
working copy of `dep` is `cache/dep`, `tags` lists the tags of each repository
and `manifests` the manifest of each working copy. -/
def sampleWalkEnv (tags : List (String × List String))
    (manifests : List (String × commandPackage)) : WalkEnv SampleConstraint where
  lib := sampleLib
  getPackageCachePath := .ok "cache"
  githubize := fun dep => dep
  packageDir := fun dest repoURL => dest ++ "/" ++ repoURL
  listTags := fun repoURL =>
    match tableLookup tags repoURL with
    | some ts => .listed ts none
    | none => .failed "repository not found"
  git := sampleGit
  readPackage := fun packageDir _ =>
    match tableLookup manifests packageDir with
    | some m => .ok m
    | none => .error "package manifest not found"

/-- The last `/`-separated element of a path (`filepath.Base` on the paths
used here). -/
def baseName : List Char → List Char
  | [] => []
  | c :: cs => if cs.elem '/' then baseName cs else if c = '/' then cs else c :: cs

/-- A materializer environment over `sampleWalkEnv`. -/
def sampleInstallEnv (tags : List (String × List String))
    (manifests : List (String × commandPackage)) : InstallEnv SampleConstraint where
  walk := sampleWalkEnv tags manifests
  getProjectRoot := .ok "project"
  basePath := fun root => root ++ "/.akamai-cli"
  RemoveAll := fun _ => none
  installPath := fun basePath packageDir => basePath ++ "/" ++ String.mk (baseName packageDir.data)
  PlainClone := fun _ _ => none

/-- The state at the start of a run. -/
def initialState : WalkState := { depth := 0, dependencies := [], log := [] }

/-! ## Vocabulary of the walker claims -/

/-- The state in which the goroutine of a requirement stops. -/
def BodyResult.state : BodyResult → WalkState
  | .done st _ _ => st
  | .sent st _ => st
  | .stuck st _ => st

/-- The variable `ref` of lines 149-155: the name of the resolved version, or
the raw constraint when resolution fails. -/
def workingRef {C : Type} (env : WalkEnv C) (pkg : commandPackage) (constraint : String)
    (versions : versionList) : String :=
  match getLatestVersionForConstraints env.lib [constraint] versions pkg.GetMinimumStability with
  | .error _ => constraint
  | .ok v => v.name

/-- A chain of manifests `root, dep1, ..., depk` in an environment: every
manifest but the last has exactly one requirement, which is not a runtime,
whose tag listing succeeds, whose working copy can be checked out at any
reference and then holds the next manifest of the chain; the last manifest has
no requirement. -/
def IsChain {C : Type} (env : WalkEnv C) (dest : String) : List commandPackage → Prop
  | [] => False
  | [p] => p.Requirements = []
  | p :: q :: rest =>
    (∃ dep constraint tags, p.Requirements = [(dep, constraint)] ∧ isRuntime dep = false ∧
      env.listTags (env.githubize dep) = .listed tags none ∧
      (∀ ref, (checkoutRef env.git ref (env.packageDir dest (env.githubize dep))).2 = none) ∧
      (∀ ref, env.readPackage (env.packageDir dest (env.githubize dep)) ref = .ok q)) ∧
    IsChain env dest (q :: rest)

/-! ## Decimal numerals -/

/-- The number written by a string of decimal digits. -/
def decimalValue (ds : List Char) : Nat :=
  ds.foldl (fun acc c => acc * 10 + (c.toNat - 48)) 0

/-- A non-empty string of decimal digits. -/
def isDigits (ds : List Char) : Bool := !ds.isEmpty && ds.all Char.isDigit

/-- A decimal numeral: digits, with an optional sign in front. -/
def isNumeral : List Char → Bool
  | '-' :: ds => isDigits ds
  | '+' :: ds => isDigits ds
  | ds => isDigits ds

/-- A string without its leading sign, if it has one. -/
def unsignedPart : List Char → List Char
  | '-' :: ds => ds
  | '+' :: ds => ds
  | ds => ds

/-- The decimal digits at the start of a string, up to its first character
that is not a digit. -/
def digitPrefix (s : List Char) : List Char := s.takeWhile Char.isDigit

/-! ## Scenarios -/

/-- A manifest with the given name, requirements and `minimum-stability`. -/
def manifest (name : String) (requirements : List (String × String))
    (minimumStability : String) : commandPackage :=
  { Name := name, Requirements := requirements, MinimumStability := minimumStability }

/-- Eight repositories `dep0` ... `dep7`, each with the single tag `1.0.0`. -/
def chainTags : List (String × List String) :=
  (List.range 8).map (fun i => ("dep" ++ toString i, ["1.0.0"]))

/-- The manifests of the working copies `cache/dep0` ... `cache/depn`, where
`depi` requires `dep(i+1)` and `depn` requires nothing. -/
def chainManifests (n : Nat) : List (String × commandPackage) :=
  (List.range (n + 1)).map (fun i =>
    ("cache/dep" ++ toString i,
      manifest ("dep" ++ toString i)
        (if i < n then [("dep" ++ toString (i + 1), "^1.0")] else []) ""))

/-- The root manifest of a chain: it requires `dep1`. -/
def chainRoot : commandPackage := manifest "root" [("dep1", "^1.0")] ""

/-- The manifests of the working copies `cache/dep0` ... `cache/dep7`, none of
which requires anything. -/
def leafManifests : List (String × commandPackage) :=
  (List.range 8).map (fun i => ("cache/dep" ++ toString i, manifest ("dep" ++ toString i) [] ""))

/-- A root manifest that requires `dep1` ... `depn` directly. -/
def wideRoot (n : Nat) : commandPackage :=
  manifest "root" ((List.range n).map (fun i => ("dep" ++ toString (i + 1), "^1.0"))) ""

/-- Two repositories `A` and `B`, each with the tags `1.0.0` and `1.1.0`. -/
def twoTags : List (String × List String) :=
  [("A", ["1.0.0", "1.1.0"]), ("B", ["1.0.0", "1.1.0"])]

/-- The manifests of `A` and `B`: neither requires anything. -/
def twoManifests : List (String × commandPackage) :=
  [("cache/A", manifest "A" [] ""), ("cache/B", manifest "B" [] "")]

/-- A root manifest, at floor stable, that requires `A` and then `B`. -/
def twoRoot : commandPackage := manifest "root" [("A", "^1.0"), ("B", "^1.0")] ""

/-- Repository `A` with the tag `1.0.0` and repository `B` with the only tag
`1.0.0-beta.1`. -/
def floorTags : List (String × List String) :=
  [("A", ["1.0.0"]), ("B", ["1.0.0-beta.1"])]

/-- The manifests of `A` and `B`; the manifest of `A` has `minimum-stability`
`alpha`. -/
def floorManifests : List (String × commandPackage) :=
  [("cache/A", manifest "A" [] "alpha"), ("cache/B", manifest "B" [] "")]

/-! ## Further scenarios -/

/-- Git operations in which every checkout form fails. -/
def failingGit : GitEnv where
  PlainOpen := fun _ => none
  Worktree := fun _ => none
  checkoutTag := fun _ _ => some "tag not found"
  checkoutBranch := fun _ _ => some "branch not found"
  checkoutHash := fun _ _ => some "object not found"

/-- The chain environment of `n` dependencies in which no checkout succeeds. -/
def failingCheckoutEnv (n : Nat) : WalkEnv SampleConstraint :=
  { sampleWalkEnv chainTags (chainManifests n) with git := failingGit }

/-- The manifests `root, dep1, ..., depn` of the chain scenario. -/
def chainPackages (n : Nat) : List commandPackage :=
  chainRoot :: ((chainManifests n).drop 1).map Prod.snd

/-! ## Lemmas on the sort -/

theorem insertDesc_perm (x : version) (l : versionList) :
    (insertDesc x l).Perm (x :: l) := by
  induction l with
  | nil => simp [insertDesc]
  | cons y ys ih =>
    unfold insertDesc
    split
    · exact List.Perm.refl _
    · exact (List.Perm.cons y ih).trans (List.Perm.swap x y ys)

theorem foldl_insertDesc_perm (xs acc : versionList) :
    (xs.foldl (fun a x => insertDesc x a) acc).Perm (xs ++ acc) := by
  induction xs generalizing acc with
  | nil => simp
  | cons x xs ih =>
    simp only [List.foldl_cons, List.cons_append]
    refine (ih (insertDesc x acc)).trans ?_
    exact (List.Perm.append_left xs (insertDesc_perm x acc)).trans List.perm_middle

theorem sortSlice_perm (xs : versionList) : (sortSlice xs).Perm xs := by
  have h := foldl_insertDesc_perm xs []
  simpa [sortSlice] using h

theorem mem_sortSlice (v : version) (xs : versionList) : v ∈ sortSlice xs ↔ v ∈ xs :=
  (sortSlice_perm xs).mem_iff

theorem insertDesc_sorted (x : version) (l : versionList)
    (h : l.Pairwise (fun a b => a.canonical ≥ b.canonical)) :
    (insertDesc x l).Pairwise (fun a b => a.canonical ≥ b.canonical) := by
  induction l with
  | nil => simp [insertDesc]
  | cons y ys ih =>
    rw [List.pairwise_cons] at h
    unfold insertDesc
    split
    · rename_i hxy
      refine List.pairwise_cons.mpr ⟨?_, List.pairwise_cons.mpr h⟩
      intro b hb
      rcases List.mem_cons.mp hb with rfl | hb
      · exact Nat.le_of_lt hxy
      · exact Nat.le_trans (h.1 b hb) (Nat.le_of_lt hxy)
    · rename_i hxy
      refine List.pairwise_cons.mpr ⟨?_, ih h.2⟩
      intro b hb
      rcases List.mem_cons.mp ((insertDesc_perm x ys).mem_iff.mp hb) with rfl | hb
      · exact Nat.le_of_not_lt hxy
      · exact h.1 b hb

theorem foldl_insertDesc_sorted (xs acc : versionList)
    (h : acc.Pairwise (fun a b => a.canonical ≥ b.canonical)) :
    (xs.foldl (fun a x => insertDesc x a) acc).Pairwise
      (fun a b => a.canonical ≥ b.canonical) := by
  induction xs generalizing acc with
  | nil => simpa using h
  | cons x xs ih =>
    simp only [List.foldl_cons]
    exact ih _ (insertDesc_sorted x acc h)

theorem mem_collectVersions {C : Type} (lib : SemverLib C) (tags : List String) (v : version) :
    v ∈ collectVersions lib tags ↔
      ∃ tag ∈ tags, ∃ ver, lib.NewVersion tag = some ver ∧ v = mkVersion ver := by
  induction tags with
  | nil => simp [collectVersions]
  | cons t ts ih =>
    unfold collectVersions
    cases hp : lib.NewVersion t with
    | none =>
      simp only [ih, List.mem_cons]
      constructor
      · rintro ⟨tag, htag, ver, h1, h2⟩
        exact ⟨tag, Or.inr htag, ver, h1, h2⟩
      · rintro ⟨tag, htag | htag, ver, h1, h2⟩
        · subst htag; rw [hp] at h1; cases h1
        · exact ⟨tag, htag, ver, h1, h2⟩
    | some ver0 =>
      simp only [List.mem_cons, ih]
      constructor
      · rintro (h | ⟨tag, htag, ver, h1, h2⟩)
        · exact ⟨t, Or.inl rfl, ver0, hp, h⟩
        · exact ⟨tag, Or.inr htag, ver, h1, h2⟩
      · rintro ⟨tag, htag | htag, ver, h1, h2⟩
        · subst htag; rw [hp] at h1; cases h1; exact Or.inl h2
        · exact Or.inr ⟨tag, htag, ver, h1, h2⟩

/-! ## Lemmas on the resolver loops -/

theorem scanVersions_some {C : Type} (lib : SemverLib C) (c1 : C) (stability : Int)
    (vs : versionList) (v : version) (h : scanVersions lib c1 stability vs = some v) :
    ∃ before after, vs = before ++ v :: after ∧
      (v.stability ≥ stability ∧ lib.Matches c1 v.semver = true) ∧
      ∀ w ∈ before, ¬ (w.stability ≥ stability ∧ lib.Matches c1 w.semver = true) := by
  induction vs with
  | nil => simp [scanVersions] at h
  | cons x xs ih =>
    unfold scanVersions at h
    split at h
    · rename_i hx
      cases h
      exact ⟨[], xs, rfl, hx, by simp⟩
    · rename_i hx
      obtain ⟨before, after, e, hv, hb⟩ := ih h
      refine ⟨x :: before, after, by simp [e], hv, ?_⟩
      intro w hw
      rcases List.mem_cons.mp hw with rfl | hw
      · exact hx
      · exact hb w hw

theorem scanVersions_none {C : Type} (lib : SemverLib C) (c1 : C) (stability : Int)
    (vs : versionList) :
    scanVersions lib c1 stability vs = none ↔
      ∀ w ∈ vs, ¬ (w.stability ≥ stability ∧ lib.Matches c1 w.semver = true) := by
  induction vs with
  | nil => simp [scanVersions]
  | cons x xs ih =>
    unfold scanVersions
    split
    · rename_i hx
      constructor
      · intro hc
        cases hc
      · intro hc
        exact absurd hx (hc x (List.mem_cons_self _ _))
    · rename_i hx
      rw [ih]
      simp only [List.mem_cons, forall_eq_or_imp]
      exact ⟨fun h => ⟨hx, h⟩, fun h => h.2⟩

theorem innerLoop_ok {C : Type} (lib : SemverLib C) (versions : versionList) (stability : Int)
    (i : Nat) (c1 : C) (j : Nat) (cs : List C) (v : version)
    (h : innerLoop lib versions stability i c1 j cs = some (.ok v)) :
    scanVersions lib c1 stability versions = some v := by
  induction cs generalizing j with
  | nil => simp [innerLoop] at h
  | cons c2 rest ih =>
    unfold innerLoop at h
    split at h
    · cases h
    · split at h
      · rename_i w hw
        cases h
        exact hw
      · exact ih (j + 1) h

theorem outerLoop_ok {C : Type} (lib : SemverLib C) (versions : versionList) (stability : Int)
    (all : List C) (i : Nat) (cs : List C) (v : version)
    (h : outerLoop lib versions stability all i cs = some (.ok v)) :
    ∃ c1 ∈ cs, scanVersions lib c1 stability versions = some v := by
  induction cs generalizing i with
  | nil => simp [outerLoop] at h
  | cons c1 rest ih =>
    unfold outerLoop at h
    split at h
    · rename_i r hr
      cases h
      exact ⟨c1, List.mem_cons_self _ _, innerLoop_ok lib versions stability i c1 0 all v hr⟩
    · obtain ⟨c, hc, hs⟩ := ih (i + 1) h
      exact ⟨c, List.mem_cons_of_mem _ hc, hs⟩

theorem resolveConstraints_ok {C : Type} (lib : SemverLib C) (constraints : List C)
    (versions : versionList) (stability : Int) (v : version)
    (h : resolveConstraints lib constraints versions stability = .ok v) :
    ∃ c1 ∈ constraints, scanVersions lib c1 stability versions = some v := by
  unfold resolveConstraints at h
  split at h
  · rename_i r hr
    subst h
    exact outerLoop_ok lib versions stability constraints 0 constraints v hr
  · cases h

theorem getLatestVersionForConstraints_ok {C : Type} (lib : SemverLib C)
    (versionConstraints : List String) (versions : versionList) (stability : Int) (v : version)
    (h : getLatestVersionForConstraints lib versionConstraints versions stability = .ok v) :
    ∃ constraints, parseConstraints lib stability versionConstraints = .ok constraints ∧
      ∃ c1 ∈ constraints, scanVersions lib c1 stability versions = some v := by
  unfold getLatestVersionForConstraints at h
  split at h
  · cases h
  · rename_i constraints hp
    exact ⟨constraints, hp, resolveConstraints_ok lib constraints versions stability v h⟩

theorem resolveConstraints_single {C : Type} (lib : SemverLib C) (k : C)
    (versions : versionList) (stability : Int) :
    resolveConstraints lib [k] versions stability =
      match scanVersions lib k stability versions with
      | some v => .ok v
      | none => .error .noVersionFound := by
  unfold resolveConstraints outerLoop innerLoop
  cases hs : scanVersions lib k stability versions <;> simp [innerLoop, outerLoop]

theorem sortSlice_sorted (xs : versionList) :
    (sortSlice xs).Pairwise (fun a b => a.canonical ≥ b.canonical) :=
  foldl_insertDesc_sorted xs [] List.Pairwise.nil

/-! ## Constraint resolver: claims -/

/-- C1 (behaviour of the code where the claim fails). When every expression of
a list `c1 :: rest` parses and the candidate scan for the first parsed
constraint finds `v`, `getLatestVersionForConstraints` returns `v` without
error: the scan runs at `i = 0, j = 0`, before any other constraint is looked
at, so the returned version is only known to satisfy the first constraint. -/
theorem getLatestVersionForConstraints_first_constraint_wins {C : Type} (lib : SemverLib C)
    (c1 : String) (rest : List String) (k1 : C) (ks : List C)
    (versions : versionList) (stability : Int) (v : version)
    (hparse : parseConstraints lib stability (c1 :: rest) = .ok (k1 :: ks))
    (hscan : scanVersions lib k1 stability versions = some v) :
    getLatestVersionForConstraints lib (c1 :: rest) versions stability = .ok v := by
  unfold getLatestVersionForConstraints
  rw [hparse]
  simp [resolveConstraints, outerLoop, innerLoop, hscan]

/-- C1, at the failing input: constraints `"1.0.0"` and `"2.0.0"`, candidates
of the tags `2.0.0` and `1.0.0`, floor stable. The resolver returns the
candidate `1.0.0`, which the second constraint does not match. -/
theorem getLatestVersionForConstraints_first_constraint_wins_witness :
    parseConstraints sampleLib ReleaseTypeStable ["1.0.0", "2.0.0"] =
        .ok [⟨'=', 1, 0, 0, 3, []⟩, ⟨'=', 2, 0, 0, 3, []⟩] ∧
      scanVersions sampleLib ⟨'=', 1, 0, 0, 3, []⟩ ReleaseTypeStable
          (getPackageVersions sampleLib ["2.0.0", "1.0.0"]) = some (mkVersion ⟨1, 0, 0, "", ""⟩) ∧
      getLatestVersionForConstraints sampleLib ["1.0.0", "2.0.0"]
          (getPackageVersions sampleLib ["2.0.0", "1.0.0"]) ReleaseTypeStable =
        .ok (mkVersion ⟨1, 0, 0, "", ""⟩) ∧
      sampleLib.Matches ⟨'=', 2, 0, 0, 3, []⟩ (mkVersion ⟨1, 0, 0, "", ""⟩).semver = false :=
  ⟨rfl, rfl,
    getLatestVersionForConstraints_first_constraint_wins sampleLib "1.0.0" ["2.0.0"]
      ⟨'=', 1, 0, 0, 3, []⟩ [⟨'=', 2, 0, 0, 3, []⟩]
      (getPackageVersions sampleLib ["2.0.0", "1.0.0"]) ReleaseTypeStable
      (mkVersion ⟨1, 0, 0, "", ""⟩) rfl rfl,
    rfl⟩

/-- C2, at the failing input: the constraints `"1.0.0"` and `"2.0.0"` admit no
common version (no version matches both, and `MatchesAny` is false for the
pair), yet with the single candidate `1.0.0` at floor stable
`getLatestVersionForConstraints` returns that candidate instead of an error. -/
theorem getLatestVersionForConstraints_conflict_returns_version :
    sampleLib.NewConstraint "1.0.0" = .ok ⟨'=', 1, 0, 0, 3, []⟩ ∧
      sampleLib.NewConstraint "2.0.0" = .ok ⟨'=', 2, 0, 0, 3, []⟩ ∧
      (∀ v : SemVer, ¬ (sampleLib.Matches ⟨'=', 1, 0, 0, 3, []⟩ v = true ∧
        sampleLib.Matches ⟨'=', 2, 0, 0, 3, []⟩ v = true)) ∧
      sampleLib.MatchesAny ⟨'=', 1, 0, 0, 3, []⟩ ⟨'=', 2, 0, 0, 3, []⟩ = false ∧
      getLatestVersionForConstraints sampleLib ["1.0.0", "2.0.0"]
          (getPackageVersions sampleLib ["1.0.0"]) ReleaseTypeStable =
        .ok (mkVersion ⟨1, 0, 0, "", ""⟩) := by
  refine ⟨rfl, rfl, ?_, rfl, rfl⟩
  rintro v ⟨h1, h2⟩
  simp only [sampleLib, sampleMatches, SampleConstraint.lo, Bool.and_eq_true,
    decide_eq_true_eq, if_true] at h1 h2
  have e1 := h1.1
  have e2 := h2.1
  rw [e1] at e2
  exact absurd e2 (by decide)

/-- C3. For one parseable constraint and a candidate list sorted by canonical
key in non-increasing order: when some candidate is at or above the floor and
matches the floor-adjusted constraint, `getLatestVersionForConstraints`
returns such a candidate whose canonical key is at least that of every other
such candidate; and it returns the "No version found" error exactly when there
is no such candidate. -/
theorem getLatestVersionForConstraints_single {C : Type} (lib : SemverLib C)
    (c : String) (k : C) (versions : versionList) (stability : Int)
    (hparse : lib.NewConstraint (adjustConstraint stability c) = .ok k)
    (hsorted : versions.Pairwise (fun a b => a.canonical ≥ b.canonical)) :
    ((∃ w ∈ versions, w.stability ≥ stability ∧ lib.Matches k w.semver = true) →
      ∃ v, getLatestVersionForConstraints lib [c] versions stability = .ok v ∧
        v ∈ versions ∧ v.stability ≥ stability ∧ lib.Matches k v.semver = true ∧
        ∀ w ∈ versions, w.stability ≥ stability → lib.Matches k w.semver = true →
          w.canonical ≤ v.canonical) ∧
    (getLatestVersionForConstraints lib [c] versions stability = .error .noVersionFound ↔
      ¬ ∃ w ∈ versions, w.stability ≥ stability ∧ lib.Matches k w.semver = true) := by
  have hres : getLatestVersionForConstraints lib [c] versions stability =
      match scanVersions lib k stability versions with
      | some v => .ok v
      | none => .error .noVersionFound := by
    unfold getLatestVersionForConstraints
    simp only [parseConstraints, hparse]
    exact resolveConstraints_single lib k versions stability
  constructor
  · rintro ⟨w, hw, hwe⟩
    cases hs : scanVersions lib k stability versions with
    | none =>
      exact absurd hwe ((scanVersions_none lib k stability versions).mp hs w hw)
    | some v =>
      obtain ⟨before, after, e, hv, hb⟩ := scanVersions_some lib k stability versions v hs
      refine ⟨v, by rw [hres, hs], by simp [e], hv.1, hv.2, ?_⟩
      intro u hu hu1 hu2
      rw [e] at hu hsorted
      rcases List.mem_append.mp hu with hu | hu
      · exact absurd ⟨hu1, hu2⟩ (hb u hu)
      · rcases List.mem_cons.mp hu with rfl | hu
        · exact Nat.le_refl _
        · exact (List.pairwise_cons.mp (List.pairwise_append.mp hsorted).2.1).1 u hu
  · rw [hres]
    cases hs : scanVersions lib k stability versions with
    | none =>
      simp only [true_iff]
      rintro ⟨w, hw, hwe⟩
      exact (scanVersions_none lib k stability versions).mp hs w hw hwe
    | some v =>
      obtain ⟨before, after, e, hv, _⟩ := scanVersions_some lib k stability versions v hs
      simp only [false_iff, not_not, reduceCtorEq]
      exact ⟨v, by simp [e], hv⟩

/-- C3, the two examples: tags `1.0.0, 1.1.0, 1.1.0-rc.1` with `"^1.0"` at
floor stable give `1.1.0`; tags `2.1.0, 2.1.5, 2.2.0` with `"~2.1"` give
`2.1.5`. -/
theorem getLatestVersionForConstraints_single_witness :
    (sampleLib.NewConstraint (adjustConstraint ReleaseTypeStable "^1.0") =
        .ok ⟨'^', 1, 0, 0, 2, []⟩ ∧
      (getPackageVersions sampleLib ["1.0.0", "1.1.0", "1.1.0-rc.1"]).Pairwise
        (fun a b => a.canonical ≥ b.canonical) ∧
      getLatestVersionForConstraints sampleLib ["^1.0"]
          (getPackageVersions sampleLib ["1.0.0", "1.1.0", "1.1.0-rc.1"]) ReleaseTypeStable =
        .ok (mkVersion ⟨1, 1, 0, "", ""⟩) ∧
      getLatestVersionForConstraints sampleLib ["~2.1"]
          (getPackageVersions sampleLib ["2.1.0", "2.1.5", "2.2.0"]) ReleaseTypeStable =
        .ok (mkVersion ⟨2, 1, 5, "", ""⟩)) ∧
    (((∃ w ∈ getPackageVersions sampleLib ["1.0.0", "1.1.0", "1.1.0-rc.1"],
          w.stability ≥ ReleaseTypeStable ∧
            sampleLib.Matches ⟨'^', 1, 0, 0, 2, []⟩ w.semver = true) →
        ∃ v, getLatestVersionForConstraints sampleLib ["^1.0"]
            (getPackageVersions sampleLib ["1.0.0", "1.1.0", "1.1.0-rc.1"])
            ReleaseTypeStable = .ok v ∧
          v ∈ getPackageVersions sampleLib ["1.0.0", "1.1.0", "1.1.0-rc.1"] ∧
          v.stability ≥ ReleaseTypeStable ∧
          sampleLib.Matches ⟨'^', 1, 0, 0, 2, []⟩ v.semver = true ∧
          ∀ w ∈ getPackageVersions sampleLib ["1.0.0", "1.1.0", "1.1.0-rc.1"],
            w.stability ≥ ReleaseTypeStable →
            sampleLib.Matches ⟨'^', 1, 0, 0, 2, []⟩ w.semver = true →
            w.canonical ≤ v.canonical) ∧
      (getLatestVersionForConstraints sampleLib ["^1.0"]
            (getPackageVersions sampleLib ["1.0.0", "1.1.0", "1.1.0-rc.1"])
            ReleaseTypeStable = .error .noVersionFound ↔
        ¬ ∃ w ∈ getPackageVersions sampleLib ["1.0.0", "1.1.0", "1.1.0-rc.1"],
          w.stability ≥ ReleaseTypeStable ∧
            sampleLib.Matches ⟨'^', 1, 0, 0, 2, []⟩ w.semver = true)) :=
  ⟨⟨rfl, sortSlice_sorted _, rfl, rfl⟩,
    getLatestVersionForConstraints_single sampleLib "^1.0" ⟨'^', 1, 0, 0, 2, []⟩
      (getPackageVersions sampleLib ["1.0.0", "1.1.0", "1.1.0-rc.1"]) ReleaseTypeStable
      rfl (sortSlice_sorted _)⟩

/-- C4. Any version that `getLatestVersionForConstraints` returns without
error is an element of the given candidate list and its stability tier is at
or above the floor. -/
theorem getLatestVersionForConstraints_mem_floor {C : Type} (lib : SemverLib C)
    (versionConstraints : List String) (versions : versionList) (stability : Int)
    (v : version)
    (h : getLatestVersionForConstraints lib versionConstraints versions stability = .ok v) :
    v ∈ versions ∧ v.stability ≥ stability := by
  obtain ⟨constraints, _, c1, _, hs⟩ :=
    getLatestVersionForConstraints_ok lib versionConstraints versions stability v h
  obtain ⟨before, after, e, hv, _⟩ := scanVersions_some lib c1 stability versions v hs
  exact ⟨by simp [e], hv.1⟩

/-- C4, an example at floor beta: of the candidates `1.0.0-alpha.1` and
`1.0.0-beta.1` the resolver returns `1.0.0-beta.1` for `"^1.0"`. -/
theorem getLatestVersionForConstraints_mem_floor_witness :
    getLatestVersionForConstraints sampleLib ["^1.0"]
        (getPackageVersions sampleLib ["1.0.0-alpha.1", "1.0.0-beta.1"]) ReleaseTypeBeta =
      .ok (mkVersion ⟨1, 0, 0, "beta.1", ""⟩) ∧
    (mkVersion ⟨1, 0, 0, "beta.1", ""⟩ ∈
        getPackageVersions sampleLib ["1.0.0-alpha.1", "1.0.0-beta.1"] ∧
      (mkVersion ⟨1, 0, 0, "beta.1", ""⟩).stability ≥ ReleaseTypeBeta) :=
  ⟨rfl,
    getLatestVersionForConstraints_mem_floor sampleLib ["^1.0"]
      (getPackageVersions sampleLib ["1.0.0-alpha.1", "1.0.0-beta.1"]) ReleaseTypeBeta
      (mkVersion ⟨1, 0, 0, "beta.1", ""⟩) rfl⟩

theorem parseConstraints_eq_mapM {C : Type} (lib : SemverLib C) (stability : Int)
    (cs : List String) :
    parseConstraints lib stability cs =
      (cs.map (adjustConstraint stability)).mapM lib.NewConstraint := by
  induction cs with
  | nil => rfl
  | cons c rest ih =>
    simp only [parseConstraints, List.map_cons, List.mapM_cons, ih]
    cases lib.NewConstraint (adjustConstraint stability c) with
    | error e => rfl
    | ok k =>
      cases List.mapM lib.NewConstraint (rest.map (adjustConstraint stability)) <;> rfl

theorem adjustConstraint_below_stable (stability : Int) (c : String)
    (hfloor : stability < ReleaseTypeStable) (hdash : containsDash c = false) :
    adjustConstraint stability c = c ++ ("-" ++ ReleaseTypes stability) := by
  unfold adjustConstraint
  rw [if_pos ⟨hfloor, hdash⟩]

theorem adjustConstraint_unchanged (stability : Int) (c : String)
    (h : stability ≥ ReleaseTypeStable ∨ containsDash c = true) :
    adjustConstraint stability c = c := by
  unfold adjustConstraint
  rw [if_neg]
  rintro ⟨h1, h2⟩
  rcases h with h | h
  · exact absurd h1 (not_lt.mpr h)
  · rw [h2] at h
    cases h

/-- C5 (behaviour of the code where the claim fails). The code takes the
character `-` anywhere in an expression for a prerelease qualifier: at a floor
below stable an expression without `-` reaches the constraint parser with the
tier name appended, and an expression that contains `-` reaches it unchanged,
at every floor. The hyphen range `1.2 - 1.4.5` carries no prerelease qualifier
and contains `-`: at floor beta `getLatestVersionForConstraints` hands it to
the parser as written, without `-beta`, whereas `1.2` is handed over as
`1.2-beta`. -/
theorem getLatestVersionForConstraints_hyphen_range_unsuffixed {C : Type}
    (lib : SemverLib C) (versions : versionList) :
    containsDash "1.2 - 1.4.5" = true ∧
    adjustConstraint ReleaseTypeBeta "1.2 - 1.4.5" = "1.2 - 1.4.5" ∧
    adjustConstraint ReleaseTypeBeta "1.2" = "1.2-beta" ∧
    getLatestVersionForConstraints lib ["1.2 - 1.4.5"] versions ReleaseTypeBeta =
      (match lib.NewConstraint "1.2 - 1.4.5" with
        | .error e => .error (.parse e)
        | .ok k => resolveConstraints lib [k] versions ReleaseTypeBeta) ∧
    getLatestVersionForConstraints lib ["1.2"] versions ReleaseTypeBeta =
      (match lib.NewConstraint "1.2-beta" with
        | .error e => .error (.parse e)
        | .ok k => resolveConstraints lib [k] versions ReleaseTypeBeta) ∧
    (∀ (c : String) (floor : Int), containsDash c = true → adjustConstraint floor c = c) ∧
    (∀ (c : String) (floor : Int), floor < ReleaseTypeStable → containsDash c = false →
      adjustConstraint floor c = c ++ ("-" ++ ReleaseTypes floor)) := by
  have h1 : adjustConstraint ReleaseTypeBeta "1.2 - 1.4.5" = "1.2 - 1.4.5" := by decide
  have h2 : adjustConstraint ReleaseTypeBeta "1.2" = "1.2-beta" := by decide
  refine ⟨by decide, h1, h2, ?_, ?_, ?_, ?_⟩
  · unfold getLatestVersionForConstraints
    simp only [parseConstraints, h1]
    cases lib.NewConstraint "1.2 - 1.4.5" <;> rfl
  · unfold getLatestVersionForConstraints
    simp only [parseConstraints, h2]
    cases lib.NewConstraint "1.2-beta" <;> rfl
  · intro c floor hc
    exact adjustConstraint_unchanged floor c (Or.inr hc)
  · intro c floor hf hc
    exact adjustConstraint_below_stable floor c hf hc

/-! ## Version model: claims -/

/-- C6. For every list of repository tags, the candidate list built by
`getPackageVersions` is sorted by canonical key in non-increasing order. -/
theorem getPackageVersions_sorted {C : Type} (lib : SemverLib C) (tags : List String) :
    (getPackageVersions lib tags).Pairwise (fun a b => a.canonical ≥ b.canonical) :=
  sortSlice_sorted (collectVersions lib tags)

/-- C7, at the failing input: the tags `1.0.0` and `0.10.0` give two candidates
that differ in major and minor and have the same canonical key `100050`, and
the tag `0.11.0` gives a key above that of `1.0.0`, so it is sorted first. -/
theorem canonical_key_collision :
    (getPackageVersions sampleLib ["1.0.0", "0.10.0"]).map
        (fun v => (v.semver.major, v.semver.minor, v.semver.patch, v.stability, v.canonical)) =
      [(1, 0, 0, 5, 100050), (0, 10, 0, 5, 100050)] ∧
    (getPackageVersions sampleLib ["1.0.0", "0.11.0"]).map (fun v => (v.name, v.canonical)) =
      [("0.11.0", 110050), ("1.0.0", 100050)] := by
  constructor <;> decide

/-- C8, at the failing input: the tags `1.0.0` and `1.0.0-rc.11` have the same
major.minor.patch, the first is stable and the second rc, yet the rc candidate
has the greater canonical key and is sorted first; `1.0.0-rc.10` has the same
key as `1.0.0`. -/
theorem getPackageVersions_rc_above_stable :
    (getPackageVersions sampleLib ["1.0.0", "1.0.0-rc.11"]).map
        (fun v => (v.name, v.stability, v.canonical)) =
      [("1.0.0-rc.11", 4, 100051), ("1.0.0", 5, 100050)] ∧
    (getPackageVersions sampleLib ["1.0.0", "1.0.0-rc.10"]).map
        (fun v => (v.name, v.stability, v.canonical)) =
      [("1.0.0", 5, 100050), ("1.0.0-rc.10", 4, 100050)] := by
  constructor <;> decide

theorem stabilityOf_range (pre : String) : 1 ≤ stabilityOf pre ∧ stabilityOf pre ≤ 5 := by
  unfold stabilityOf
  simp only
  split_ifs <;> decide

theorem mkVersion_canonical (ver : SemVer) :
    ((mkVersion ver).canonical : Int) =
      ((ver.major : Int) * 100000 + (ver.minor : Int) * 10000 + (ver.patch : Int) * 1000 +
        ((mkVersion ver).stability * 10 + prereleaseOrdinal ver.pre)) % 18446744073709551616 := by
  simp only [mkVersion, twoPow64, toUint64, wrapInt64]
  generalize stabilityOf ver.pre * 10 + prereleaseOrdinal ver.pre = x
  omega

/-- C9. For every tag that parses as a semantic version, the candidate list
holds a candidate for it whose canonical key is
`major*100000 + minor*10000 + patch*1000 + (stability*10 + ordinal)` reduced
modulo `2^64` (64-bit unsigned arithmetic), where `stability` is the
candidate's tier number, between dev = 1 and stable = 5, and `ordinal` the
prerelease ordinal read from the second prerelease segment. -/
theorem getPackageVersions_canonical_formula {C : Type} (lib : SemverLib C) (tags : List String)
    (tag : String) (ver : SemVer) (htag : tag ∈ tags) (hparse : lib.NewVersion tag = some ver) :
    ∃ v ∈ getPackageVersions lib tags, v.semver = ver ∧
      v.stability = stabilityOf ver.pre ∧
      ReleaseTypeDev = 1 ∧ ReleaseTypeStable = 5 ∧
      ReleaseTypeDev ≤ v.stability ∧ v.stability ≤ ReleaseTypeStable ∧
      (v.canonical : Int) =
        ((ver.major : Int) * 100000 + (ver.minor : Int) * 10000 + (ver.patch : Int) * 1000 +
          (v.stability * 10 + prereleaseOrdinal ver.pre)) % (2 : Int) ^ 64 := by
  refine ⟨mkVersion ver, ?_, rfl, rfl, rfl, rfl, (stabilityOf_range ver.pre).1,
    (stabilityOf_range ver.pre).2, ?_⟩
  · exact (mem_sortSlice _ _).mpr
      ((mem_collectVersions lib tags _).mpr ⟨tag, htag, ver, hparse, rfl⟩)
  · rw [mkVersion_canonical]
    norm_num

/-- C9, an example: the tag `3.4.5-rc.2` gives the key
`3*100000 + 4*10000 + 5*1000 + (4*10 + 2) = 345042`. -/
theorem getPackageVersions_canonical_formula_witness :
    ("3.4.5-rc.2" ∈ ["1.0.0", "3.4.5-rc.2"] ∧
      sampleLib.NewVersion "3.4.5-rc.2" = some ⟨3, 4, 5, "rc.2", ""⟩ ∧
      (mkVersion ⟨3, 4, 5, "rc.2", ""⟩).canonical = 345042) ∧
    ∃ v ∈ getPackageVersions sampleLib ["1.0.0", "3.4.5-rc.2"],
      v.semver = ⟨3, 4, 5, "rc.2", ""⟩ ∧
      v.stability = stabilityOf (SemVer.mk 3 4 5 "rc.2" "").pre ∧
      ReleaseTypeDev = 1 ∧ ReleaseTypeStable = 5 ∧
      ReleaseTypeDev ≤ v.stability ∧ v.stability ≤ ReleaseTypeStable ∧
      (v.canonical : Int) =
        (((SemVer.mk 3 4 5 "rc.2" "").major : Int) * 100000 +
          ((SemVer.mk 3 4 5 "rc.2" "").minor : Int) * 10000 +
          ((SemVer.mk 3 4 5 "rc.2" "").patch : Int) * 1000 +
          (v.stability * 10 + prereleaseOrdinal (SemVer.mk 3 4 5 "rc.2" "").pre)) %
            (2 : Int) ^ 64 :=
  ⟨⟨by decide, by decide, by decide⟩,
    getPackageVersions_canonical_formula sampleLib ["1.0.0", "3.4.5-rc.2"] "3.4.5-rc.2"
      ⟨3, 4, 5, "rc.2", ""⟩ (by decide) (by decide)⟩

/-- C10 (as stated, refuted): the candidate built from the tag `1.2.3` does not
have the canonical key `102003000`. -/
theorem tag_1_2_3_key_is_not_102003000 :
    ¬ ∃ v, getPackageVersions sampleLib ["1.2.3"] = [v] ∧
      v.stability = ReleaseTypeStable ∧ v.canonical = 102003000 := by
  rintro ⟨v, hv, _, hc⟩
  have h : getPackageVersions sampleLib ["1.2.3"] = [mkVersion ⟨1, 2, 3, "", ""⟩] := by decide
  rw [h] at hv
  cases hv
  revert hc
  decide

/-- C10 (amended). Whenever the library parses the tag `1.2.3` as version
1.2.3 with no prerelease, the candidate list built from that tag is the single
candidate named `1.2.3`, with stability stable and canonical key
`1*100000 + 2*10000 + 3*1000 + 50 = 123050`. -/
theorem getPackageVersions_tag_1_2_3 {C : Type} (lib : SemverLib C)
    (hparse : lib.NewVersion "1.2.3" = some ⟨1, 2, 3, "", ""⟩) :
    (getPackageVersions lib ["1.2.3"]).map (fun v => (v.name, v.stability, v.canonical)) =
      [("1.2.3", ReleaseTypeStable, 123050)] := by
  simp only [getPackageVersions, collectVersions, hparse]
  decide

/-- C10 (amended), on the concrete library instance. -/
theorem getPackageVersions_tag_1_2_3_witness :
    sampleLib.NewVersion "1.2.3" = some ⟨1, 2, 3, "", ""⟩ ∧
      (getPackageVersions sampleLib ["1.2.3"]).map (fun v => (v.name, v.stability, v.canonical)) =
        [("1.2.3", ReleaseTypeStable, 123050)] :=
  ⟨by decide, getPackageVersions_tag_1_2_3 sampleLib (by decide)⟩

/-! ## Dependency map: lemmas and claims -/

theorem lookupDep_storeDep (d : deps) (key : String) (value : pkgDep) (q : String) :
    lookupDep (storeDep d key value) q = if key = q then some value else lookupDep d q := by
  induction d with
  | nil => simp [storeDep, lookupDep]
  | cons kv rest ih =>
    obtain ⟨k, v⟩ := kv
    unfold storeDep
    by_cases hk : k = key
    · subst hk
      by_cases hq : k = q <;> simp [lookupDep, hq]
    · simp only [if_neg hk, lookupDep, ih]
      by_cases hq : k = q
      · subst hq
        simp [Ne.symm hk]
      · simp [hq]

/-- C17. For every dependency map, cache path `p`, version list and constraint
`c`: `addToDependencies` leaves the record of every other cache path
unchanged, removes no key, and makes the record of `p` hold the given versions
and the previous constraint list of `p` (empty when `p` was absent) with `c`
appended at the end; so after two calls for `p` on a map without `p` the
record holds both constraints in the order they were added. -/
theorem addToDependencies_frame (dependencies : deps) (p : String) (versions : versionList)
    (c : String) :
    (∀ q, q ≠ p →
      lookupDep (addToDependencies dependencies p versions c) q = lookupDep dependencies q) ∧
    (∀ q, (lookupDep dependencies q).isSome = true →
      (lookupDep (addToDependencies dependencies p versions c) q).isSome = true) ∧
    (lookupDep dependencies p = none →
      lookupDep (addToDependencies dependencies p versions c) p =
        some { versions := versions, constraints := [c] }) ∧
    (∀ d, lookupDep dependencies p = some d →
      lookupDep (addToDependencies dependencies p versions c) p =
        some { versions := versions, constraints := d.constraints ++ [c] }) ∧
    (∀ (versions2 : versionList) (c2 : String), lookupDep dependencies p = none →
      lookupDep (addToDependencies (addToDependencies dependencies p versions c) p versions2 c2) p =
        some { versions := versions2, constraints := [c, c2] }) := by
  have hp : ∀ dd : deps, lookupDep (addToDependencies dd p versions c) p =
      some { versions := versions,
             constraints := (match lookupDep dd p with
               | some d => d.constraints
               | none => []) ++ [c] } := by
    intro dd
    simp [addToDependencies, lookupDep_storeDep]
  refine ⟨?_, ?_, ?_, ?_, ?_⟩
  · intro q hq
    simp [addToDependencies, lookupDep_storeDep, Ne.symm hq]
  · intro q hq
    by_cases h : p = q
    · subst h
      rw [hp]
      rfl
    · simpa [addToDependencies, lookupDep_storeDep, h] using hq
  · intro h
    rw [hp, h]
    rfl
  · intro d h
    rw [hp, h]
  · intro versions2 c2 h
    simp [addToDependencies, lookupDep_storeDep, h]

/-- C17, an example: a dependency required as `"^1.0"` and then as `"~1.2"`
ends with both constraints, in that order, while the record of another cache
path is untouched. -/
theorem addToDependencies_frame_witness :
    lookupDep (addToDependencies
        (addToDependencies [("cache/A", { versions := [], constraints := ["1.0.0"] })]
          "cache/B" [] "^1.0") "cache/B" [] "~1.2") "cache/B" =
      some { versions := [], constraints := ["^1.0", "~1.2"] } ∧
    (∀ q, q ≠ "cache/B" →
      lookupDep (addToDependencies
          [("cache/A", { versions := [], constraints := ["1.0.0"] })] "cache/B" [] "^1.0") q =
        lookupDep [("cache/A", { versions := [], constraints := ["1.0.0"] })] q) :=
  ⟨(addToDependencies_frame [("cache/A", { versions := [], constraints := ["1.0.0"] })]
      "cache/B" [] "^1.0").2.2.2.2 [] "~1.2" (by decide),
    (addToDependencies_frame [("cache/A", { versions := [], constraints := ["1.0.0"] })]
      "cache/B" [] "^1.0").1⟩

/-! ## Checkout resolver: claim -/

/-- C18. For every reference and every working copy that opens (`PlainOpen` and
`Worktree` succeed), `checkoutRef` tries the tag checkout; if it succeeds the
call ends with no error and no other attempt; otherwise it tries the branch
checkout, likewise; otherwise it tries the revision-hash checkout and returns
nil if it succeeds and the error of the hash attempt if it fails. -/
theorem checkoutRef_fallback (git : GitEnv) (ref : String) (packageDir : String)
    (hopen : git.PlainOpen packageDir = none) (hwt : git.Worktree packageDir = none) :
    (git.checkoutTag packageDir ref = none →
      checkoutRef git ref packageDir = ([.tag], none)) ∧
    (git.checkoutTag packageDir ref ≠ none → git.checkoutBranch packageDir ref = none →
      checkoutRef git ref packageDir = ([.tag, .branch], none)) ∧
    (git.checkoutTag packageDir ref ≠ none → git.checkoutBranch packageDir ref ≠ none →
      checkoutRef git ref packageDir =
        ([.tag, .branch, .hash], git.checkoutHash packageDir ref)) := by
  refine ⟨?_, ?_, ?_⟩
  · intro h
    simp [checkoutRef, hopen, hwt, h]
  · intro h1 h2
    cases ht : git.checkoutTag packageDir ref with
    | none => exact absurd ht h1
    | some e => simp [checkoutRef, hopen, hwt, ht, h2]
  · intro h1 h2
    cases ht : git.checkoutTag packageDir ref with
    | none => exact absurd ht h1
    | some e =>
      cases hb : git.checkoutBranch packageDir ref with
      | none => exact absurd hb h2
      | some e2 =>
        cases hh : git.checkoutHash packageDir ref <;> simp [checkoutRef, hopen, hwt, ht, hb, hh]

/-- C18, examples: a reference that is both a tag and a branch triggers the tag
checkout only; a reference for which the three forms fail returns the error of
the hash attempt. -/
theorem checkoutRef_fallback_witness :
    checkoutRef sampleGit "v1" "cache/A" = ([.tag], none) ∧
    checkoutRef
        { sampleGit with
          checkoutTag := fun _ _ => some "tag not found"
          checkoutBranch := fun _ _ => some "branch not found"
          checkoutHash := fun _ _ => some "object not found" } "v1" "cache/A" =
      ([.tag, .branch, .hash], some "object not found") :=
  ⟨(checkoutRef_fallback sampleGit "v1" "cache/A" rfl rfl).1 rfl,
    (checkoutRef_fallback
      { sampleGit with
        checkoutTag := fun _ _ => some "tag not found"
        checkoutBranch := fun _ _ => some "branch not found"
        checkoutHash := fun _ _ => some "object not found" } "v1" "cache/A" rfl rfl).2.2
      (by simp) (by simp)⟩

/-! ## Version source: claim -/

theorem collectVersions_eq_filterMap {C : Type} (lib : SemverLib C) (tags : List String) :
    collectVersions lib tags = tags.filterMap (fun t => (lib.NewVersion t).map mkVersion) := by
  induction tags with
  | nil => rfl
  | cons t ts ih =>
    unfold collectVersions
    cases h : lib.NewVersion t <;> simp [List.filterMap_cons, h, ih]

theorem filterMap_parsed_length {C : Type} (lib : SemverLib C) (tags : List String) :
    (tags.filterMap (fun t => (lib.NewVersion t).map mkVersion)).length =
      (tags.filter (fun t => (lib.NewVersion t).isSome)).length := by
  induction tags with
  | nil => rfl
  | cons t ts ih =>
    cases h : lib.NewVersion t <;> simp [List.filterMap_cons, List.filter_cons, h, ih]

/-- C12. For every list of repository tags, the candidate list built by
`getPackageVersions` is a rearrangement of the list that holds, for each tag
in turn, the candidate of the tag when it parses as a semantic version and
nothing when it does not (one candidate per parseable tag, none for the
others); and the error that `getPackageVersions` returns after a tag listing
is the error value of the listing, whatever the tags are: nil when the listing
succeeded. For the tags `release-1` and `1.2.3` the result is the single
candidate `1.2.3` and a nil error. -/
theorem getPackageVersions_one_per_parsed_tag {C : Type} (lib : SemverLib C)
    (tags : List String) :
    (getPackageVersions lib tags).Perm
        (tags.filterMap (fun t => (lib.NewVersion t).map mkVersion)) ∧
      (getPackageVersions lib tags).length =
        (tags.filter (fun t => (lib.NewVersion t).isSome)).length ∧
      (∀ forEachErr, (getPackageVersionsFrom lib (.listed tags forEachErr)).2 = forEachErr) ∧
      (getPackageVersionsFrom lib (.listed tags none)).1 = getPackageVersions lib tags ∧
      getPackageVersionsFrom sampleLib (.listed ["release-1", "1.2.3"] none) =
        ([mkVersion ⟨1, 2, 3, "", ""⟩], none) := by
  have hperm : (getPackageVersions lib tags).Perm
      (tags.filterMap (fun t => (lib.NewVersion t).map mkVersion)) := by
    rw [← collectVersions_eq_filterMap]
    exact sortSlice_perm _
  refine ⟨hperm, ?_, fun _ => rfl, rfl, by decide⟩
  rw [hperm.length_eq]
  exact filterMap_parsed_length lib tags

/-! ## Prerelease text: lemmas and claim -/

theorem digitVal_eq (c : Char) :
    digitVal c = if c.isDigit = true then some (c.toNat - 48) else none := by
  unfold digitVal Char.isDigit
  have h0 : ('0' ≤ c) ↔ (c.val ≥ 48) := Iff.rfl
  have h9 : (c ≤ '9') ↔ (c.val ≤ 57) := Iff.rfl
  simp only [h0, h9, Bool.and_eq_true, decide_eq_true_eq]

theorem foldl_digits_ge (ds : List Char) (acc : Nat) :
    acc ≤ ds.foldl (fun a c => a * 10 + (c.toNat - 48)) acc := by
  induction ds generalizing acc with
  | nil => exact Nat.le_refl _
  | cons c cs ih =>
    simp only [List.foldl_cons]
    exact Nat.le_trans (by omega) (ih _)

theorem parseUint_digits (ds : List Char) (acc : Nat) (hacc : acc < 18446744073709551616)
    (h : ds.all Char.isDigit = true) :
    parseUint ds acc =
      if 18446744073709551616 ≤ ds.foldl (fun a c => a * 10 + (c.toNat - 48)) acc then
        .outOfRange
      else .value (ds.foldl (fun a c => a * 10 + (c.toNat - 48)) acc) := by
  induction ds generalizing acc with
  | nil =>
    simp only [parseUint, List.foldl_nil]
    rw [if_neg (by omega)]
  | cons c cs ih =>
    simp only [List.all_cons, Bool.and_eq_true] at h
    simp only [parseUint, digitVal_eq, h.1, if_true, List.foldl_cons]
    have hge := foldl_digits_ge cs (acc * 10 + (c.toNat - 48))
    have hih := ih (acc * 10 + (c.toNat - 48))
    generalize c.toNat - 48 = d at hge hih ⊢
    by_cases h1 : acc ≥ 1844674407370955162
    · rw [if_pos h1, if_pos (by omega)]
    · by_cases h2 : acc * 10 + d > 18446744073709551615
      · rw [if_neg h1, if_pos h2, if_pos (by omega)]
      · rw [if_neg h1, if_neg h2]
        exact hih (by omega) h.2

theorem parseUint_not_digits (ds : List Char) (acc : Nat) (hacc : acc < 18446744073709551616)
    (h : ds.all Char.isDigit = false) :
    parseUint ds acc =
      if 18446744073709551616 ≤
          (digitPrefix ds).foldl (fun a c => a * 10 + (c.toNat - 48)) acc then
        .outOfRange
      else .malformed := by
  induction ds generalizing acc with
  | nil => simp at h
  | cons c cs ih =>
    by_cases hc : c.isDigit = true
    · have hcs : cs.all Char.isDigit = false := by simpa [hc] using h
      simp only [parseUint, digitVal_eq, hc, if_true, digitPrefix, List.takeWhile_cons,
        List.foldl_cons]
      have hge := foldl_digits_ge (List.takeWhile Char.isDigit cs) (acc * 10 + (c.toNat - 48))
      have hih := ih (acc * 10 + (c.toNat - 48))
      simp only [digitPrefix] at hih
      generalize c.toNat - 48 = d at hge hih ⊢
      by_cases h1 : acc ≥ 1844674407370955162
      · rw [if_pos h1, if_pos (by omega)]
      · by_cases h2 : acc * 10 + d > 18446744073709551615
        · rw [if_neg h1, if_pos h2, if_pos (by omega)]
        · rw [if_neg h1, if_neg h2]
          exact hih (by omega) hcs
    · have hc2 : c.isDigit = false := by simpa using hc
      simp only [parseUint, digitVal_eq, hc2, Bool.false_eq_true, if_false, digitPrefix,
        List.takeWhile_cons, List.foldl_nil]
      rw [if_neg (by omega)]

theorem Atoi_minus (ds : List Char) :
    Atoi ('-' :: ds) =
      if ds = [] then 0
      else match parseUint ds 0 with
        | .malformed => 0
        | .outOfRange => minInt64
        | .value n => if (n : Int) > 9223372036854775808 then minInt64 else -(n : Int) := by
  rfl

theorem Atoi_plus (ds : List Char) :
    Atoi ('+' :: ds) =
      if ds = [] then 0
      else match parseUint ds 0 with
        | .malformed => 0
        | .outOfRange => maxInt64
        | .value n => if (n : Int) > maxInt64 then maxInt64 else (n : Int) := by
  rfl

theorem Atoi_unsigned (c : Char) (cs : List Char) (h1 : c ≠ '-') (h2 : c ≠ '+') :
    Atoi (c :: cs) =
      match parseUint (c :: cs) 0 with
        | .malformed => 0
        | .outOfRange => maxInt64
        | .value n => if (n : Int) > maxInt64 then maxInt64 else (n : Int) := by
  unfold Atoi
  split
  · rename_i h; cases h
  · rename_i ds h
    simp only [List.cons.injEq] at h
    exact absurd h.1 h1
  · rename_i ds h
    simp only [List.cons.injEq] at h
    exact absurd h.1 h2
  · rfl

theorem isDigits_iff (ds : List Char) :
    isDigits ds = true ↔ ds ≠ [] ∧ ds.all Char.isDigit = true := by
  cases ds <;> simp [isDigits]

theorem not_isDigits (ds : List Char) (hne : ds ≠ []) (h : isDigits ds = false) :
    ds.all Char.isDigit = false := by
  cases hb : ds.all Char.isDigit with
  | false => rfl
  | true =>
    rw [(isDigits_iff ds).mpr ⟨hne, hb⟩] at h
    cases h

theorem digit_ne_sign (c : Char) (hc : c.isDigit = true) : c ≠ '-' ∧ c ≠ '+' := by
  constructor
  · rintro rfl
    revert hc
    decide
  · rintro rfl
    revert hc
    decide

theorem Atoi_digits (ds : List Char) (h : isDigits ds = true) :
    Atoi ds = min (decimalValue ds : Int) maxInt64 := by
  obtain ⟨hne, hall⟩ := (isDigits_iff ds).mp h
  cases ds with
  | nil => exact absurd rfl hne
  | cons c cs =>
    have hc : c.isDigit = true := by
      simp only [List.all_cons, Bool.and_eq_true] at hall
      exact hall.1
    rw [Atoi_unsigned c cs (digit_ne_sign c hc).1 (digit_ne_sign c hc).2,
      parseUint_digits _ 0 (by omega) hall]
    simp only [decimalValue, maxInt64]
    generalize List.foldl (fun a c => a * 10 + (c.toNat - 48)) 0 (c :: cs) = n
    by_cases h1 : 18446744073709551616 ≤ n
    · rw [if_pos h1, min_eq_right (by omega)]
    · rw [if_neg h1]
      simp only []
      by_cases h2 : (n : Int) > 9223372036854775807
      · rw [if_pos h2, min_eq_right (by omega)]
      · rw [if_neg h2, min_eq_left (by omega)]

theorem Atoi_minus_digits (ds : List Char) (h : isDigits ds = true) :
    Atoi ('-' :: ds) = max (-(decimalValue ds : Int)) minInt64 := by
  obtain ⟨hne, hall⟩ := (isDigits_iff ds).mp h
  rw [Atoi_minus, if_neg hne, parseUint_digits _ 0 (by omega) hall]
  simp only [decimalValue, minInt64]
  generalize List.foldl (fun a c => a * 10 + (c.toNat - 48)) 0 ds = n
  by_cases h1 : 18446744073709551616 ≤ n
  · rw [if_pos h1, max_eq_right (by omega)]
  · rw [if_neg h1]
    simp only []
    by_cases h2 : (n : Int) > 9223372036854775808
    · rw [if_pos h2, max_eq_right (by omega)]
    · rw [if_neg h2, max_eq_left (by omega)]

theorem Atoi_plus_digits (ds : List Char) (h : isDigits ds = true) :
    Atoi ('+' :: ds) = min (decimalValue ds : Int) maxInt64 := by
  obtain ⟨hne, hall⟩ := (isDigits_iff ds).mp h
  rw [Atoi_plus, if_neg hne, parseUint_digits _ 0 (by omega) hall]
  simp only [decimalValue, maxInt64]
  generalize List.foldl (fun a c => a * 10 + (c.toNat - 48)) 0 ds = n
  by_cases h1 : 18446744073709551616 ≤ n
  · rw [if_pos h1, min_eq_right (by omega)]
  · rw [if_neg h1]
    simp only []
    by_cases h2 : (n : Int) > 9223372036854775807
    · rw [if_pos h2, min_eq_right (by omega)]
    · rw [if_neg h2, min_eq_left (by omega)]

theorem Atoi_not_numeral (s : List Char) (h : isNumeral s = false) :
    Atoi s =
      if 18446744073709551616 ≤ decimalValue (digitPrefix (unsignedPart s)) then
        (if s.head? = some '-' then minInt64 else maxInt64)
      else 0 := by
  cases s with
  | nil => rfl
  | cons c cs =>
    by_cases h1 : c = '-'
    · subst h1
      have hd : isDigits cs = false := h
      rw [Atoi_minus]
      simp only [unsignedPart, List.head?_cons, if_true, decimalValue]
      by_cases hne : cs = []
      · subst hne
        rfl
      · rw [if_neg hne, parseUint_not_digits cs 0 (by omega) (not_isDigits cs hne hd)]
        split_ifs <;> rfl
    · by_cases h2 : c = '+'
      · subst h2
        have hd : isDigits cs = false := h
        rw [Atoi_plus]
        have hhead : ¬ (some '+' = some '-') := by decide
        simp only [unsignedPart, List.head?_cons, if_neg hhead, decimalValue]
        by_cases hne : cs = []
        · subst hne
          rfl
        · rw [if_neg hne, parseUint_not_digits cs 0 (by omega) (not_isDigits cs hne hd)]
          split_ifs <;> rfl
      · have hd : isDigits (c :: cs) = false := by
          unfold isNumeral at h
          split at h
          · rename_i ds heq
            simp only [List.cons.injEq] at heq
            exact absurd heq.1 h1
          · rename_i ds heq
            simp only [List.cons.injEq] at heq
            exact absurd heq.1 h2
          · exact h
        have hu : unsignedPart (c :: cs) = c :: cs := by
          unfold unsignedPart
          split
          · rename_i ds heq
            simp only [List.cons.injEq] at heq
            exact absurd heq.1 h1
          · rename_i ds heq
            simp only [List.cons.injEq] at heq
            exact absurd heq.1 h2
          · rfl
        have hhead : ¬ ((c :: cs).head? = some '-') := by
          simp only [List.head?_cons, Option.some.injEq]
          exact h1
        rw [Atoi_unsigned c cs h1 h2, hu, if_neg hhead,
          parseUint_not_digits _ 0 (by omega)
            (not_isDigits _ (List.cons_ne_nil _ _) hd)]
        simp only [decimalValue]
        split_ifs <;> rfl

theorem toLower_eq_nil (s : List Char) : toLower s = [] ↔ s = [] := by
  cases s <;> simp [toLower]

/-- C11 (as stated, refuted): in the tag `1.0.0-rc.99999999999999999999` the
second prerelease segment is numeric, yet the prerelease ordinal is neither the
number it writes nor 0: it is the largest 64-bit signed integer. -/
theorem prereleaseOrdinal_out_of_range :
    sampleLib.NewVersion "1.0.0-rc.99999999999999999999" =
        some ⟨1, 0, 0, "rc.99999999999999999999", ""⟩ ∧
      splitDots "rc.99999999999999999999".data = ["rc".data, "99999999999999999999".data] ∧
      isDigits "99999999999999999999".data = true ∧
      decimalValue "99999999999999999999".data = 99999999999999999999 ∧
      prereleaseOrdinal "rc.99999999999999999999" = 9223372036854775807 ∧
      ¬ (prereleaseOrdinal "rc.99999999999999999999" = 99999999999999999999 ∨
        prereleaseOrdinal "rc.99999999999999999999" = 0) ∧
      (getPackageVersions sampleLib ["1.0.0-rc.99999999999999999999"]).map
          (fun v => (v.stability, v.canonical)) = [(4, 9223372036854875847)] := by
  refine ⟨by decide, by decide, by decide, by decide, by decide, ?_, by decide⟩
  have h : prereleaseOrdinal "rc.99999999999999999999" = 9223372036854775807 := by decide
  rw [h]
  decide

/-- C11 (amended). For every parsed tag, with `first` the first dot-separated
segment of the prerelease text and `rest` the other segments: the stability
tier of the candidate is stable when `first` is empty, alpha, beta or rc when
the lower-cased `first` is `alpha`, `beta` or `rc`, and dev for any other
non-empty `first`. The prerelease ordinal that enters the canonical key is 0
when there is no second segment. When the second segment is a decimal numeral
(digits, optionally preceded by a sign) it is the value of the numeral if that
lies in the 64-bit signed range and the nearest bound of that range otherwise.
When the second segment is not a decimal numeral it is 0, unless the digits
before its first character that is not a digit (after the sign, if any)
already exceed 64 bits: then it is the largest 64-bit signed integer, or the
smallest when the segment starts with `-`. -/
theorem getPackageVersions_stability_ordinal {C : Type} (lib : SemverLib C)
    (tags : List String) (tag : String) (ver : SemVer) (first : List Char)
    (rest : List (List Char))
    (htag : tag ∈ tags) (hparse : lib.NewVersion tag = some ver)
    (hsplit : splitDots ver.pre.data = first :: rest) :
    ∃ v ∈ getPackageVersions lib tags, v.semver = ver ∧
      (first = [] → v.stability = ReleaseTypeStable) ∧
      (toLower first = "alpha".data → v.stability = ReleaseTypeAlpha) ∧
      (toLower first = "beta".data → v.stability = ReleaseTypeBeta) ∧
      (toLower first = "rc".data → v.stability = ReleaseTypeRc) ∧
      (first ≠ [] → toLower first ≠ "alpha".data → toLower first ≠ "beta".data →
        toLower first ≠ "rc".data → v.stability = ReleaseTypeDev) ∧
      (v.canonical : Int) =
        ((ver.major : Int) * 100000 + (ver.minor : Int) * 10000 + (ver.patch : Int) * 1000 +
          (v.stability * 10 + prereleaseOrdinal ver.pre)) % (2 : Int) ^ 64 ∧
      (rest = [] → prereleaseOrdinal ver.pre = 0) ∧
      (∀ p1 more, rest = p1 :: more →
        (isDigits p1 = true →
          prereleaseOrdinal ver.pre = min (decimalValue p1 : Int) maxInt64) ∧
        (∀ ds, p1 = '-' :: ds → isDigits ds = true →
          prereleaseOrdinal ver.pre = max (-(decimalValue ds : Int)) minInt64) ∧
        (∀ ds, p1 = '+' :: ds → isDigits ds = true →
          prereleaseOrdinal ver.pre = min (decimalValue ds : Int) maxInt64) ∧
        (isNumeral p1 = false →
          decimalValue (digitPrefix (unsignedPart p1)) < 18446744073709551616 →
          prereleaseOrdinal ver.pre = 0) ∧
        (isNumeral p1 = false →
          18446744073709551616 ≤ decimalValue (digitPrefix (unsignedPart p1)) →
          prereleaseOrdinal ver.pre =
            if p1.head? = some '-' then minInt64 else maxInt64)) := by
  have hst : (mkVersion ver).stability = stabilityOf ver.pre := rfl
  have hs : stabilityOf ver.pre =
      if toLower first = [] then ReleaseTypeStable
      else if toLower first = "alpha".data then ReleaseTypeAlpha
      else if toLower first = "beta".data then ReleaseTypeBeta
      else if toLower first = "rc".data then ReleaseTypeRc
      else ReleaseTypeDev := by
    simp only [stabilityOf, hsplit, List.headD_cons]
  refine ⟨mkVersion ver, ?_, rfl, ?_, ?_, ?_, ?_, ?_, ?_, ?_, ?_⟩
  · exact (mem_sortSlice _ _).mpr
      ((mem_collectVersions lib tags _).mpr ⟨tag, htag, ver, hparse, rfl⟩)
  · intro h
    rw [hst, hs, if_pos ((toLower_eq_nil first).mpr h)]
  · intro h
    rw [hst, hs, h]
    decide
  · intro h
    rw [hst, hs, h]
    decide
  · intro h
    rw [hst, hs, h]
    decide
  · intro h0 h1 h2 h3
    rw [hst, hs, if_neg (fun h => h0 ((toLower_eq_nil first).mp h)), if_neg h1, if_neg h2,
      if_neg h3]
  · rw [mkVersion_canonical]
    norm_num
  · intro h
    simp only [prereleaseOrdinal, hsplit, h]
  · intro p1 more h
    have hp : prereleaseOrdinal ver.pre = Atoi p1 := by
      simp only [prereleaseOrdinal, hsplit, h]
    rw [hp]
    refine ⟨Atoi_digits p1, ?_, ?_, ?_, ?_⟩
    · rintro ds rfl hd
      exact Atoi_minus_digits ds hd
    · rintro ds rfl hd
      exact Atoi_plus_digits ds hd
    · intro hn hlt
      rw [Atoi_not_numeral p1 hn, if_neg (by omega)]
    · intro hn hge
      rw [Atoi_not_numeral p1 hn, if_pos hge]

/-- C11 (amended), on the tag `2.0.0-Beta.7`: the tier is beta and the ordinal
is 7. Further second segments: `12x` and `18446744073709551615x` give 0, `-5`
gives -5, and `99999999999999999999x`, whose first twenty digits exceed 64
bits, gives the largest 64-bit signed integer. -/
theorem getPackageVersions_stability_ordinal_witness :
    (prereleaseOrdinal "rc.12x" = 0 ∧ prereleaseOrdinal "rc.18446744073709551615x" = 0 ∧
      prereleaseOrdinal "rc.-5" = -5 ∧
      isNumeral "99999999999999999999x".data = false ∧
      prereleaseOrdinal "rc.99999999999999999999x" = 9223372036854775807 ∧
      prereleaseOrdinal "rc.-99999999999999999999x" = -9223372036854775808 ∧
      (getPackageVersions sampleLib ["1.0.0-rc.99999999999999999999x"]).map
        (fun v => (v.stability, v.canonical)) = [(4, 9223372036854875847)]) ∧
    ("2.0.0-Beta.7" ∈ ["2.0.0-Beta.7"] ∧
      sampleLib.NewVersion "2.0.0-Beta.7" = some ⟨2, 0, 0, "Beta.7", ""⟩ ∧
      splitDots (SemVer.mk 2 0 0 "Beta.7" "").pre.data = "Beta".data :: ["7".data] ∧
      toLower "Beta".data = "beta".data ∧ isDigits "7".data = true ∧
      decimalValue "7".data = 7 ∧
      (getPackageVersions sampleLib ["2.0.0-Beta.7"]).map (fun v => (v.stability, v.canonical)) =
        [(3, 200037)]) ∧
    ∃ v ∈ getPackageVersions sampleLib ["2.0.0-Beta.7"], v.semver = ⟨2, 0, 0, "Beta.7", ""⟩ ∧
      ("Beta".data = [] → v.stability = ReleaseTypeStable) ∧
      (toLower "Beta".data = "alpha".data → v.stability = ReleaseTypeAlpha) ∧
      (toLower "Beta".data = "beta".data → v.stability = ReleaseTypeBeta) ∧
      (toLower "Beta".data = "rc".data → v.stability = ReleaseTypeRc) ∧
      ("Beta".data ≠ [] → toLower "Beta".data ≠ "alpha".data →
        toLower "Beta".data ≠ "beta".data →
        toLower "Beta".data ≠ "rc".data → v.stability = ReleaseTypeDev) ∧
      (v.canonical : Int) =
        (((SemVer.mk 2 0 0 "Beta.7" "").major : Int) * 100000 +
          ((SemVer.mk 2 0 0 "Beta.7" "").minor : Int) * 10000 +
          ((SemVer.mk 2 0 0 "Beta.7" "").patch : Int) * 1000 +
          (v.stability * 10 + prereleaseOrdinal (SemVer.mk 2 0 0 "Beta.7" "").pre)) %
            (2 : Int) ^ 64 ∧
      (["7".data] = [] → prereleaseOrdinal (SemVer.mk 2 0 0 "Beta.7" "").pre = 0) ∧
      (∀ p1 more, ["7".data] = p1 :: more →
        (isDigits p1 = true →
          prereleaseOrdinal (SemVer.mk 2 0 0 "Beta.7" "").pre =
            min (decimalValue p1 : Int) maxInt64) ∧
        (∀ ds, p1 = '-' :: ds → isDigits ds = true →
          prereleaseOrdinal (SemVer.mk 2 0 0 "Beta.7" "").pre =
            max (-(decimalValue ds : Int)) minInt64) ∧
        (∀ ds, p1 = '+' :: ds → isDigits ds = true →
          prereleaseOrdinal (SemVer.mk 2 0 0 "Beta.7" "").pre =
            min (decimalValue ds : Int) maxInt64) ∧
        (isNumeral p1 = false →
          decimalValue (digitPrefix (unsignedPart p1)) < 18446744073709551616 →
          prereleaseOrdinal (SemVer.mk 2 0 0 "Beta.7" "").pre = 0) ∧
        (isNumeral p1 = false →
          18446744073709551616 ≤ decimalValue (digitPrefix (unsignedPart p1)) →
          prereleaseOrdinal (SemVer.mk 2 0 0 "Beta.7" "").pre =
            if p1.head? = some '-' then minInt64 else maxInt64)) :=
  ⟨⟨by decide, by decide, by decide, by decide, by decide, by decide, by decide⟩,
    ⟨by decide, by decide, by decide, by decide, by decide, by decide, by decide⟩,
    getPackageVersions_stability_ordinal sampleLib ["2.0.0-Beta.7"] "2.0.0-Beta.7"
      ⟨2, 0, 0, "Beta.7", ""⟩ "Beta".data ["7".data] (by decide) (by decide) (by decide)⟩

/-! ## Dependency walker: lemmas -/

theorem afterVersions_rec {C : Type} (env : WalkEnv C)
    (rec : WalkState → commandPackage → WalkState × Outcome) (packageDir : String)
    (st : WalkState) (pkg : commandPackage) (err : Option String) (constraint : String)
    (versions : versionList) (q : commandPackage)
    (hck : (checkoutRef env.git (workingRef env pkg constraint versions) packageDir).2 = none)
    (hrd : env.readPackage packageDir (workingRef env pkg constraint versions) = .ok q) :
    ∃ st3 : WalkState, st3.depth = st.depth ∧
      st3.log = st.log ++ [.add packageDir constraint,
        .resolve [constraint] pkg.GetMinimumStability,
        .checkout (workingRef env pkg constraint versions) packageDir, .read packageDir] ∧
      st3.dependencies = addToDependencies st.dependencies packageDir versions constraint ∧
      afterVersions env rec packageDir st pkg err constraint versions =
        match rec st3 q with
        | (st4, .returned (some e)) => .sent (st4.record [.send e]) e
        | (st4, .returned none) => .done st4 q err
        | (st4, o) => .stuck st4 o := by
  refine ⟨{ depth := st.depth,
            dependencies := addToDependencies st.dependencies packageDir versions constraint,
            log := st.log ++ [.add packageDir constraint,
              .resolve [constraint] pkg.GetMinimumStability,
              .checkout (workingRef env pkg constraint versions) packageDir,
              .read packageDir] }, rfl, rfl, rfl, ?_⟩
  unfold afterVersions
  simp only [workingRef] at hck hrd
  simp only [hck, hrd, WalkState.record, List.append_assoc, List.cons_append, List.nil_append]
  rfl

theorem afterVersions_checkout_fail {C : Type} (env : WalkEnv C)
    (rec : WalkState → commandPackage → WalkState × Outcome) (packageDir : String)
    (st : WalkState) (pkg : commandPackage) (err : Option String) (constraint : String)
    (versions : versionList) (e : String)
    (hck : (checkoutRef env.git (workingRef env pkg constraint versions) packageDir).2 = some e) :
    ∃ st1, afterVersions env rec packageDir st pkg err constraint versions = .sent st1 e := by
  unfold afterVersions
  simp only [workingRef] at hck
  simp only [hck]
  exact ⟨_, rfl⟩

theorem afterVersions_read_fail {C : Type} (env : WalkEnv C)
    (rec : WalkState → commandPackage → WalkState × Outcome) (packageDir : String)
    (st : WalkState) (pkg : commandPackage) (err : Option String) (constraint : String)
    (versions : versionList) (e : String)
    (hck : (checkoutRef env.git (workingRef env pkg constraint versions) packageDir).2 = none)
    (hrd : env.readPackage packageDir (workingRef env pkg constraint versions) = .error e) :
    ∃ st1, afterVersions env rec packageDir st pkg err constraint versions = .sent st1 e := by
  unfold afterVersions
  simp only [workingRef] at hck hrd
  simp only [hck, hrd]
  exact ⟨_, rfl⟩

theorem tooDeep_of_depth {C : Type} (env : WalkEnv C) (fuel : Nat) (st : WalkState)
    (pkg : commandPackage) (h : st.depth ≥ MaxDepth) :
    getDependenciesRecursiveFuel env fuel st pkg =
      ((enterCall st pkg).record [.tooDeep pkg.Name], .returned (some errTooDeep)) := by
  have hd : (enterCall st pkg).depth > MaxDepth := by
    simp only [enterCall]
    omega
  cases fuel <;> simp only [getDependenciesRecursiveFuel, if_pos hd]


theorem requirementBody_rec {C : Type} (env : WalkEnv C)
    (rec : WalkState → commandPackage → WalkState × Outcome) (dest : String)
    (st : WalkState) (pkg : commandPackage) (err : Option String) (dep constraint : String)
    (tags : List String) (q : commandPackage)
    (htags : env.listTags (env.githubize dep) = .listed tags none)
    (hck : ∀ ref, (checkoutRef env.git ref (env.packageDir dest (env.githubize dep))).2 = none)
    (hrd : ∀ ref, env.readPackage (env.packageDir dest (env.githubize dep)) ref = .ok q) :
    ∃ (st3 : WalkState) (err1 : Option String) (evs : List Event), st3.depth = st.depth ∧
      (err1 = none ∨ err1 = err) ∧ st3.log = st.log ++ evs ∧ (∀ name, Event.tooDeep name ∉ evs) ∧
      requirementBody env rec dest st pkg err dep constraint =
        match rec st3 q with
        | (st4, .returned (some e)) => .sent (st4.record [.send e]) e
        | (st4, .returned none) => .done st4 q err1
        | (st4, o) => .stuck st4 o := by
  cases hl : lookupDep st.dependencies (env.packageDir dest (env.githubize dep)) with
  | none =>
    unfold requirementBody
    simp only [hl, htags, getPackageVersionsFrom]
    obtain ⟨st3, hd, hlog, _, heq⟩ := afterVersions_rec env rec
      (env.packageDir dest (env.githubize dep)) (st.record [.fetch (env.githubize dep)]) pkg none
      constraint (getPackageVersions env.lib tags) q (hck _) (hrd _)
    refine ⟨st3, none, [.fetch (env.githubize dep),
      .add (env.packageDir dest (env.githubize dep)) constraint,
      .resolve [constraint] pkg.GetMinimumStability,
      .checkout (workingRef env pkg constraint (getPackageVersions env.lib tags))
        (env.packageDir dest (env.githubize dep)),
      .read (env.packageDir dest (env.githubize dep))], hd, Or.inl rfl, ?_, ?_, heq⟩
    · rw [hlog]
      simp only [WalkState.record, List.append_assoc]
      rfl
    · intro name hmem
      simp at hmem
  | some d =>
    unfold requirementBody
    simp only [hl]
    obtain ⟨st3, hd, hlog, _, heq⟩ := afterVersions_rec env rec
      (env.packageDir dest (env.githubize dep)) st pkg err
      constraint d.versions q (hck _) (hrd _)
    refine ⟨st3, err, [.add (env.packageDir dest (env.githubize dep)) constraint,
      .resolve [constraint] pkg.GetMinimumStability,
      .checkout (workingRef env pkg constraint d.versions)
        (env.packageDir dest (env.githubize dep)),
      .read (env.packageDir dest (env.githubize dep))], hd, Or.inr rfl, hlog, ?_, heq⟩
    intro name hmem
    simp at hmem


theorem chain_within_bound {C : Type} (env : WalkEnv C) (dest : String)
    (hcache : env.getPackageCachePath = .ok dest) (rest : List commandPackage) :
    ∀ (p : commandPackage) (st : WalkState) (fuel : Nat), IsChain env dest (p :: rest) →
      st.depth + ((rest.length + 1 : Nat) : Int) ≤ MaxDepth → MaxDepth - st.depth ≤ (fuel : Int) →
      ∃ (st1 : WalkState) (evs : List Event),
        getDependenciesRecursiveFuel env fuel st p = (st1, .returned none) ∧
        st1.log = st.log ++ evs ∧ ∀ name, Event.tooDeep name ∉ evs := by
  induction rest with
  | nil =>
    intro p st fuel hch hd hf
    simp only [MaxDepth, List.length_nil] at hd hf
    cases fuel with
    | zero => exfalso; omega
    | succ f =>
      have hnd : ¬ (enterCall st p).depth > MaxDepth := by
        simp only [enterCall, MaxDepth]
        omega
      have hreq : p.Requirements = [] := hch
      simp only [getDependenciesRecursiveFuel, if_neg hnd, hcache, hreq, requirementsLoop]
      exact ⟨_, [.enter p.Name (st.depth + 1)], rfl, rfl, by simp⟩
  | cons q rest ih =>
    intro p st fuel hch hd hf
    obtain ⟨⟨dep, c, tags, hreq, hrt, htags, hck, hrd⟩, hch1⟩ := hch
    simp only [MaxDepth, List.length_cons] at hd hf
    cases fuel with
    | zero => exfalso; omega
    | succ f =>
      have hnd : ¬ (enterCall st p).depth > MaxDepth := by
        simp only [enterCall, MaxDepth]
        omega
      obtain ⟨st3, err1, evs, hd3, herr, hlog3, hno3, hbody⟩ :=
        requirementBody_rec env (getDependenciesRecursiveFuel env f) dest (enterCall st p) p none
          dep c tags q htags hck hrd
      have hd3' : st3.depth = st.depth + 1 := by rw [hd3]; rfl
      obtain ⟨st4, evs4, hrec, hlog4, hno4⟩ := ih q st3 f hch1
        (by simp only [MaxDepth]; push_cast; omega) (by simp only [MaxDepth]; push_cast at hf ⊢; omega)
      have herr1 : err1 = none := by
        rcases herr with h | h <;> exact h
      simp only [getDependenciesRecursiveFuel, if_neg hnd, hcache, hreq, requirementsLoop, hrt,
        Bool.false_eq_true, if_false, hbody, hrec, herr1]
      refine ⟨st4, [.enter p.Name (st.depth + 1)] ++ evs ++ evs4, rfl, ?_, ?_⟩
      · rw [hlog4, hlog3]
        simp only [enterCall, List.append_assoc]
      · intro name hmem
        simp only [List.mem_append, List.mem_singleton] at hmem
        rcases hmem with (h | h) | h
        · cases h
        · exact hno3 name h
        · exact hno4 name h

theorem chain_beyond_bound {C : Type} (env : WalkEnv C) (dest : String)
    (hcache : env.getPackageCachePath = .ok dest) (rest : List commandPackage) :
    ∀ (p : commandPackage) (st : WalkState) (fuel : Nat) (n : Nat), IsChain env dest (p :: rest) →
      st.depth = (n : Int) → n ≤ 5 → 6 < n + rest.length + 1 → MaxDepth - st.depth ≤ (fuel : Int) →
      ∃ q, rest[5 - n]? = some q ∧
        Event.tooDeep q.Name ∈ (getDependenciesRecursiveFuel env fuel st p).1.log ∧
        (getDependenciesRecursiveFuel env fuel st p).2 = .blocked := by
  induction rest with
  | nil =>
    intro p st fuel n hch hd hn hlen hf
    simp only [List.length_nil] at hlen
    omega
  | cons q rest ih =>
    intro p st fuel n hch hd hn hlen hf
    obtain ⟨⟨dep, c, tags, hreq, hrt, htags, hck, hrd⟩, hch1⟩ := hch
    simp only [MaxDepth, List.length_cons] at hlen hf
    cases fuel with
    | zero => exfalso; omega
    | succ f =>
      have hnd : ¬ (enterCall st p).depth > MaxDepth := by
        simp only [enterCall, MaxDepth]
        omega
      obtain ⟨st3, err1, evs, hd3, herr, hlog3, hno3, hbody⟩ :=
        requirementBody_rec env (getDependenciesRecursiveFuel env f) dest (enterCall st p) p none
          dep c tags q htags hck hrd
      have hd3' : st3.depth = ((n + 1 : Nat) : Int) := by
        rw [hd3]
        simp only [enterCall, hd]
        push_cast
        rfl
      by_cases h5 : n = 5
      · subst h5
        have hrec := tooDeep_of_depth env f st3 q (by simp only [MaxDepth]; omega)
        refine ⟨q, by simp, ?_, ?_⟩
        · simp only [getDependenciesRecursiveFuel, if_neg hnd, hcache, hreq, requirementsLoop, hrt,
            Bool.false_eq_true, if_false, hbody, hrec, WalkState.record]
          simp
        · simp only [getDependenciesRecursiveFuel, if_neg hnd, hcache, hreq, requirementsLoop, hrt,
            Bool.false_eq_true, if_false, hbody, hrec]
      · obtain ⟨q1, hq1, hmem, hblk⟩ := ih q st3 f (n + 1) hch1 hd3' (by omega) (by omega)
          (by simp only [MaxDepth]; push_cast at hf ⊢; omega)
        refine ⟨q1, ?_, ?_, ?_⟩
        · have hidx : 5 - n = (5 - (n + 1)) + 1 := by omega
          rw [hidx, List.getElem?_cons_succ]
          exact hq1
        · simp only [getDependenciesRecursiveFuel, if_neg hnd, hcache, hreq, requirementsLoop, hrt,
            Bool.false_eq_true, if_false, hbody]
          revert hmem hblk
          cases hr : getDependenciesRecursiveFuel env f st3 q with
          | mk st4 o =>
            intro hmem hblk
            simp only at hblk
            subst hblk
            exact hmem
        · simp only [getDependenciesRecursiveFuel, if_neg hnd, hcache, hreq, requirementsLoop, hrt,
            Bool.false_eq_true, if_false, hbody]
          revert hmem hblk
          cases hr : getDependenciesRecursiveFuel env f st3 q with
          | mk st4 o =>
            intro hmem hblk
            simp only at hblk
            subst hblk
            rfl

theorem afterVersions_log {C : Type} (env : WalkEnv C)
    (rec : WalkState → commandPackage → WalkState × Outcome)
    (hrec : ∀ st pkg, st.log <+: (rec st pkg).1.log) (packageDir : String)
    (st : WalkState) (pkg : commandPackage) (err : Option String) (constraint : String)
    (versions : versionList) :
    (st.log ++ [Event.add packageDir constraint]) <+:
      (afterVersions env rec packageDir st pkg err constraint versions).state.log := by
  unfold afterVersions
  simp only []
  split
  · simp only [BodyResult.state, WalkState.record, List.append_assoc, List.cons_append,
      List.nil_append]
    exact (List.prefix_append_right_inj _).mpr ⟨_, rfl⟩
  · split
    · simp only [BodyResult.state, WalkState.record, List.append_assoc, List.cons_append,
        List.nil_append]
      exact (List.prefix_append_right_inj _).mpr ⟨_, rfl⟩
    · rename_i pkg1 _
      have hp : ∀ (st4 : WalkState) (o : Outcome),
          (∃ (st3 : WalkState) (evs : List Event),
            st3.log = st.log ++ (Event.add packageDir constraint :: evs) ∧
            rec st3 pkg1 = (st4, o)) →
          (st.log ++ [Event.add packageDir constraint]) <+: st4.log := by
        rintro st4 o ⟨st3, evs, h3, h4⟩
        have h := hrec st3 pkg1
        rw [h4] at h
        refine List.IsPrefix.trans ?_ h
        rw [h3]
        exact (List.prefix_append_right_inj _).mpr ⟨evs, rfl⟩
      split
      · rename_i st4 e heq
        simp only [BodyResult.state, WalkState.record]
        exact (hp st4 _ ⟨_, _, by
          simp only [WalkState.record, List.append_assoc, List.cons_append, List.nil_append]
          rfl, heq⟩).trans (List.prefix_append _ _)
      · rename_i st4 heq
        exact hp st4 _ ⟨_, _, by
          simp only [WalkState.record, List.append_assoc, List.cons_append, List.nil_append]
          rfl, heq⟩
      · rename_i st4 o _ _ heq
        exact hp st4 _ ⟨_, _, by
          simp only [WalkState.record, List.append_assoc, List.cons_append, List.nil_append]
          rfl, heq⟩

theorem requirementBody_log {C : Type} (env : WalkEnv C)
    (rec : WalkState → commandPackage → WalkState × Outcome)
    (hrec : ∀ st pkg, st.log <+: (rec st pkg).1.log) (dest : String)
    (st : WalkState) (pkg : commandPackage) (err : Option String) (dep constraint : String) :
    ∃ ev, (ev = Event.fetch (env.githubize dep) ∨
        ev = Event.add (env.packageDir dest (env.githubize dep)) constraint) ∧
      (st.log ++ [ev]) <+: (requirementBody env rec dest st pkg err dep constraint).state.log := by
  cases hl : lookupDep st.dependencies (env.packageDir dest (env.githubize dep)) with
  | none =>
    refine ⟨_, Or.inl rfl, ?_⟩
    unfold requirementBody
    simp only [hl]
    split
    · simp only [BodyResult.state, WalkState.record, List.append_assoc]
      exact (List.prefix_append_right_inj _).mpr ⟨_, rfl⟩
    · rename_i versions _
      refine List.IsPrefix.trans ?_ (afterVersions_log env rec hrec _ _ pkg none constraint versions)
      simp only [WalkState.record, List.append_assoc]
      exact (List.prefix_append_right_inj _).mpr ⟨_, rfl⟩
  | some d =>
    refine ⟨_, Or.inr rfl, ?_⟩
    unfold requirementBody
    simp only [hl]
    exact afterVersions_log env rec hrec _ st pkg err constraint d.versions

theorem requirementsLoop_log {C : Type} (env : WalkEnv C)
    (rec : WalkState → commandPackage → WalkState × Outcome)
    (hrec : ∀ st pkg, st.log <+: (rec st pkg).1.log) (dest : String)
    (reqs : List (String × String)) :
    ∀ (st : WalkState) (pkg : commandPackage) (err : Option String),
      st.log <+: (requirementsLoop env rec dest reqs st pkg err).1.log := by
  induction reqs with
  | nil =>
    intro st pkg err
    exact List.prefix_refl _
  | cons r rest ih =>
    intro st pkg err
    obtain ⟨dep, constraint⟩ := r
    unfold requirementsLoop
    split
    · exact ih st pkg err
    · obtain ⟨ev, _, hev⟩ := requirementBody_log env rec hrec dest st pkg err dep constraint
      have hst : st.log <+: (requirementBody env rec dest st pkg err dep constraint).state.log :=
        (List.prefix_append _ _).trans hev
      split
      · rename_i st1 pkg1 err1 heq
        rw [heq] at hst
        exact hst.trans (ih st1 pkg1 err1)
      · rename_i st1 e heq
        rw [heq] at hst
        exact hst
      · rename_i st1 o heq
        rw [heq] at hst
        exact hst

theorem getDependenciesRecursiveFuel_log {C : Type} (env : WalkEnv C) (fuel : Nat) :
    ∀ (st : WalkState) (pkg : commandPackage),
      st.log <+: (getDependenciesRecursiveFuel env fuel st pkg).1.log := by
  induction fuel with
  | zero =>
    intro st pkg
    unfold getDependenciesRecursiveFuel
    split
    · simp only [WalkState.record, enterCall, List.append_assoc]
      exact List.prefix_append _ _
    · split <;> exact List.prefix_append _ _
  | succ f ih =>
    intro st pkg
    unfold getDependenciesRecursiveFuel
    split
    · simp only [WalkState.record, enterCall, List.append_assoc]
      exact List.prefix_append _ _
    · split
      · exact List.prefix_append _ _
      · rename_i dest _
        exact (List.prefix_append _ _).trans
          (requirementsLoop_log env _ ih dest pkg.Requirements (enterCall st pkg) pkg none)

theorem isRuntime_iff (val : String) :
    isRuntime val = true ↔
      val.toLower = "python" ∨ val.toLower = "go" ∨ val.toLower = "node" ∨
        val.toLower = "ruby" ∨ val.toLower = "php" := by
  have h : ∀ s : String, val.toLower = s ↔ toLower val.data = s.data := by
    intro s
    rw [String.toLower, String.map_eq, String.ext_iff]
    rfl
  simp only [h, isRuntime]
  split_ifs <;> simp_all

theorem afterVersions_cases {C : Type} (env : WalkEnv C)
    (rec : WalkState → commandPackage → WalkState × Outcome) (packageDir : String)
    (st : WalkState) (pkg : commandPackage) (err : Option String) (constraint : String)
    (versions : versionList) :
    (∃ st1 e, afterVersions env rec packageDir st pkg err constraint versions = .sent st1 e ∧
      (st.depth ≤ st1.depth)) ∨
    (∃ (st3 : WalkState) (q : commandPackage), st3.depth = st.depth ∧
      afterVersions env rec packageDir st pkg err constraint versions =
        match rec st3 q with
        | (st4, .returned (some e)) => .sent (st4.record [.send e]) e
        | (st4, .returned none) => .done st4 q err
        | (st4, o) => .stuck st4 o) := by
  cases hck : (checkoutRef env.git (workingRef env pkg constraint versions) packageDir).2 with
  | some e =>
    left
    unfold afterVersions
    simp only [workingRef] at hck
    simp only [hck]
    exact ⟨_, _, rfl, le_refl _⟩
  | none =>
    cases hrd : env.readPackage packageDir (workingRef env pkg constraint versions) with
    | error e =>
      left
      unfold afterVersions
      simp only [workingRef] at hck hrd
      simp only [hck, hrd]
      exact ⟨_, _, rfl, le_refl _⟩
    | ok q =>
      right
      obtain ⟨st3, hd, _, _, heq⟩ := afterVersions_rec env rec packageDir st pkg err constraint
        versions q hck hrd
      exact ⟨st3, q, hd, heq⟩

theorem requirementBody_cases {C : Type} (env : WalkEnv C)
    (rec : WalkState → commandPackage → WalkState × Outcome) (dest : String)
    (st : WalkState) (pkg : commandPackage) (err : Option String) (dep constraint : String) :
    (∃ st1 e, requirementBody env rec dest st pkg err dep constraint = .sent st1 e ∧
      (st.depth ≤ st1.depth)) ∨
    (∃ (st3 : WalkState) (q : commandPackage) (err1 : Option String), st3.depth = st.depth ∧
      (err1 = none ∨ err1 = err) ∧
      requirementBody env rec dest st pkg err dep constraint =
        match rec st3 q with
        | (st4, .returned (some e)) => .sent (st4.record [.send e]) e
        | (st4, .returned none) => .done st4 q err1
        | (st4, o) => .stuck st4 o) := by
  cases hl : lookupDep st.dependencies (env.packageDir dest (env.githubize dep)) with
  | some d =>
    have hb : requirementBody env rec dest st pkg err dep constraint =
        afterVersions env rec (env.packageDir dest (env.githubize dep)) st pkg err constraint
          d.versions := by
      unfold requirementBody
      simp only [hl]
    rw [hb]
    rcases afterVersions_cases env rec _ st pkg err constraint d.versions with h | ⟨st3, q, hd, h⟩
    · exact Or.inl h
    · exact Or.inr ⟨st3, q, err, hd, Or.inr rfl, h⟩
  | none =>
    cases hg : getPackageVersionsFrom env.lib (env.listTags (env.githubize dep)) with
    | mk vs oe =>
      cases oe with
      | some e =>
        left
        unfold requirementBody
        simp only [hl, hg]
        exact ⟨_, _, rfl, le_refl _⟩
      | none =>
        have hb : requirementBody env rec dest st pkg err dep constraint =
            afterVersions env rec (env.packageDir dest (env.githubize dep))
              (st.record [.fetch (env.githubize dep)]) pkg none constraint vs := by
          unfold requirementBody
          simp only [hl, hg]
        rw [hb]
        rcases afterVersions_cases env rec _ (st.record [.fetch (env.githubize dep)]) pkg none
          constraint vs with h | ⟨st3, q, hd, h⟩
        · exact Or.inl h
        · exact Or.inr ⟨st3, q, none, hd, Or.inl rfl, h⟩

theorem requirementsLoop_total {C : Type} (env : WalkEnv C)
    (rec : WalkState → commandPackage → WalkState × Outcome) (dest : String) (bound : Int)
    (hrec : ∀ st pkg, st.depth ≤ (rec st pkg).1.depth ∧
      (bound ≤ st.depth → (rec st pkg).2 ≠ .outOfFuel))
    (reqs : List (String × String)) :
    ∀ (st : WalkState) (pkg : commandPackage) (err : Option String),
      st.depth ≤ (requirementsLoop env rec dest reqs st pkg err).1.depth ∧
      (bound ≤ st.depth → (requirementsLoop env rec dest reqs st pkg err).2 ≠ .outOfFuel) := by
  induction reqs with
  | nil =>
    intro st pkg err
    simp [requirementsLoop]
  | cons r rest ih =>
    intro st pkg err
    obtain ⟨dep, constraint⟩ := r
    unfold requirementsLoop
    split
    · exact ih st pkg err
    · rcases requirementBody_cases env rec dest st pkg err dep constraint with
        ⟨st1, e, h, hd⟩ | ⟨st3, q, err1, hd3, _, h⟩
      · rw [h]
        exact ⟨hd, by simp⟩
      · rw [h]
        have hm := (hrec st3 q).1
        have ho := (hrec st3 q).2
        rw [hd3] at hm ho
        cases hr : rec st3 q with
        | mk st4 o =>
          rw [hr] at hm ho
          simp only at hm ho
          cases o with
          | returned oe =>
            cases oe with
            | some e =>
              simp only
              exact ⟨by simp only [WalkState.record]; omega, by simp⟩
            | none =>
              simp only
              have h4 := ih st4 q err1
              exact ⟨by omega, fun hb => h4.2 (by omega)⟩
          | blocked =>
            simp only
            exact ⟨by omega, by simp⟩
          | outOfFuel =>
            simp only
            exact ⟨by omega, fun hb => absurd rfl (ho hb)⟩

theorem getDependenciesRecursiveFuel_total {C : Type} (env : WalkEnv C) (fuel : Nat) :
    ∀ (st : WalkState) (pkg : commandPackage),
      st.depth ≤ (getDependenciesRecursiveFuel env fuel st pkg).1.depth ∧
      (MaxDepth - (fuel : Int) ≤ st.depth →
        (getDependenciesRecursiveFuel env fuel st pkg).2 ≠ .outOfFuel) := by
  induction fuel with
  | zero =>
    intro st pkg
    unfold getDependenciesRecursiveFuel
    split
    · exact ⟨by simp only [WalkState.record, enterCall]; omega, by simp⟩
    · rename_i hnd
      split
      · exact ⟨by simp only [enterCall]; omega, by simp⟩
      · refine ⟨by simp only [enterCall]; omega, ?_⟩
        intro hb
        simp only [enterCall, MaxDepth] at hnd hb
        omega
  | succ f ih =>
    intro st pkg
    unfold getDependenciesRecursiveFuel
    split
    · exact ⟨by simp only [WalkState.record, enterCall]; omega, by simp⟩
    · split
      · exact ⟨by simp only [enterCall]; omega, by simp⟩
      · rename_i dest _
        have h := requirementsLoop_total env (getDependenciesRecursiveFuel env f) dest
          (MaxDepth - (f : Int)) ih pkg.Requirements (enterCall st pkg) pkg none
        refine ⟨?_, ?_⟩
        · have := h.1
          simp only [enterCall] at this ⊢
          omega
        · intro hb
          apply h.2
          simp only [enterCall]
          push_cast at hb
          omega

theorem getDependenciesRecursive_total {C : Type} (env : WalkEnv C) (st : WalkState)
    (pkg : commandPackage) : (getDependenciesRecursive env st pkg).2 ≠ .outOfFuel := by
  unfold getDependenciesRecursive
  apply (getDependenciesRecursiveFuel_total env _ st pkg).2
  omega


theorem requirementsLoop_returns_nil {C : Type} (env : WalkEnv C)
    (rec : WalkState → commandPackage → WalkState × Outcome) (dest : String)
    (reqs : List (String × String)) :
    ∀ (st : WalkState) (pkg : commandPackage) (r : Option String),
      (requirementsLoop env rec dest reqs st pkg none).2 = .returned r → r = none := by
  induction reqs with
  | nil =>
    intro st pkg r h
    simp only [requirementsLoop, Outcome.returned.injEq] at h
    exact h.symm
  | cons x rest ih =>
    intro st pkg r
    obtain ⟨dep, constraint⟩ := x
    unfold requirementsLoop
    split
    · exact ih st pkg r
    · rcases requirementBody_cases env rec dest st pkg none dep constraint with
        ⟨st1, e, h, _⟩ | ⟨st3, q, err1, _, herr, h⟩
      · rw [h]
        intro hr
        cases hr
      · rw [h]
        have herr1 : err1 = none := by
          rcases herr with h1 | h1 <;> exact h1
        subst herr1
        cases hr : rec st3 q with
        | mk st4 o =>
          cases o with
          | returned oe =>
            cases oe with
            | some e =>
              intro hx
              cases hx
            | none => exact ih st4 q r
          | blocked =>
            intro hx
            cases hx
          | outOfFuel =>
            intro hx
            cases hx

theorem getDependenciesRecursive_error_origin {C : Type} (env : WalkEnv C) (st : WalkState)
    (pkg : commandPackage) (e : String)
    (h : (getDependenciesRecursive env st pkg).2 = .returned (some e)) :
    (MaxDepth ≤ st.depth ∧ e = errTooDeep) ∨ env.getPackageCachePath = .error e := by
  unfold getDependenciesRecursive at h
  generalize (MaxDepth - st.depth).toNat = fuel at h
  cases fuel with
  | zero =>
    unfold getDependenciesRecursiveFuel at h
    split at h
    · rename_i hd
      simp only [Outcome.returned.injEq, Option.some.injEq] at h
      left
      refine ⟨?_, h.symm⟩
      simp only [enterCall] at hd
      omega
    · split at h
      · rename_i e1 hc
        simp only [Outcome.returned.injEq, Option.some.injEq] at h
        right
        rw [hc, h]
      · cases h
  | succ f =>
    unfold getDependenciesRecursiveFuel at h
    split at h
    · rename_i hd
      simp only [Outcome.returned.injEq, Option.some.injEq] at h
      left
      refine ⟨?_, h.symm⟩
      simp only [enterCall] at hd
      omega
    · split at h
      · rename_i e1 hc
        simp only [Outcome.returned.injEq, Option.some.injEq] at h
        right
        rw [hc, h]
      · have := requirementsLoop_returns_nil env _ _ _ _ _ _ h
        cases this

/-! ## Materializer: claim -/

/-- C13, at the failing input. The loop over the dependency records ends with
`return err` inside its body, so for every environment it handles the first
record it visits and ignores the others. After a walk that accumulated the two
records `cache/A` and `cache/B`, with every clone, resolution and checkout
succeeding, `installProjectPackages` returns nil having cloned, resolved and
checked out `cache/A` only: the log holds no clone and no checkout for
`cache/B`. -/
theorem installProjectPackages_first_record_only :
    (∀ (C : Type) (env : InstallEnv C) (basePath : String) (stability : Int) (log : List Event)
        (first : String × pkgDep) (rest : deps),
        installLoop env basePath stability log (first :: rest) =
          installLoop env basePath stability log [first]) ∧
    (installProjectPackages (sampleInstallEnv twoTags twoManifests) initialState twoRoot).2 =
      .returned none ∧
    (installProjectPackages (sampleInstallEnv twoTags twoManifests) initialState
        twoRoot).1.dependencies.map Prod.fst = ["cache/A", "cache/B"] ∧
    (installProjectPackages (sampleInstallEnv twoTags twoManifests) initialState twoRoot).1.log =
      [.enter "root" 1,
        .fetch "A", .add "cache/A" "^1.0", .resolve ["^1.0"] 5, .checkout "1.1.0" "cache/A",
        .read "cache/A", .enter "A" 2,
        .fetch "B", .add "cache/B" "^1.0", .resolve ["^1.0"] 5, .checkout "1.1.0" "cache/B",
        .read "cache/B", .enter "B" 3,
        .clone "project/.akamai-cli/A" "cache/A", .resolve ["^1.0"] 5,
        .checkout "1.1.0" "project/.akamai-cli/A"] := by
  refine ⟨?_, by decide, by decide, by decide⟩
  intro C env basePath stability log first rest
  obtain ⟨packageDir, requirement⟩ := first
  rfl

/-! ## Dependency walker: claims -/

/-- C14, at the failing input: the chain `root → dep1 → … → dep6 → dep7` in
which every fetch, checkout and manifest read succeeds. The call entered for
the manifest of `dep6` is the seventh and returns the "dependency tree too
deep" error; its goroutine then reaches `errChan <- err` and the root call
never returns. No requirement of `dep6` or `dep7` was resolved: `dep7` was
never fetched. -/
theorem getDependenciesRecursive_chain_of_seven_blocks :
    tableLookup (chainManifests 7) "cache/dep6" = some (manifest "dep6" [("dep7", "^1.0")] "") ∧
    (getDependenciesRecursive (sampleWalkEnv chainTags (chainManifests 7)) initialState
        chainRoot).2 = .blocked ∧
    (getDependenciesRecursive (sampleWalkEnv chainTags (chainManifests 7)) initialState
        chainRoot).1.log.drop 30 =
      [.enter "dep5" 6, .fetch "dep6", .add "cache/dep6" "^1.0", .resolve ["^1.0"] 5,
        .checkout "1.0.0" "cache/dep6", .read "cache/dep6", .enter "dep6" 7, .tooDeep "dep6",
        .send "dependency tree too deep, unable to resolve"] ∧
    Event.fetch "dep7" ∉ (getDependenciesRecursive (sampleWalkEnv chainTags (chainManifests 7))
        initialState chainRoot).1.log := by
  refine ⟨by decide, by decide, by decide, by decide⟩

/-- C15 (as stated, refuted): in the chain `root → dep1 → … → dep6`, where
`dep6` requires nothing, the call for the manifest of `dep6` returns the
"dependency tree too deep" error, although `dep6` is nested six levels below
the root; and a root manifest with six direct requirements that require
nothing produces the error too, at the sixth of them. -/
theorem tooDeep_at_six_levels :
    tableLookup (chainManifests 6) "cache/dep6" = some (manifest "dep6" [] "") ∧
    Event.tooDeep "dep6" ∈ (getDependenciesRecursive (sampleWalkEnv chainTags (chainManifests 6))
        initialState chainRoot).1.log ∧
    (wideRoot 6).Requirements.length = 6 ∧
    Event.tooDeep "dep6" ∈ (getDependenciesRecursive (sampleWalkEnv chainTags leafManifests)
        initialState (wideRoot 6)).1.log := by
  refine ⟨by decide, by decide, by decide, by decide⟩

/-- C15 (amended). The depth counter is incremented on entry of every call, the
root call included, so the root manifest is entered at depth 1. For a chain
`root → dep1 → … → depk` in which every fetch, checkout and manifest read
succeeds, walked from the counter value 0: when `k ≤ 5` the root call returns
nil and no call returns the "dependency tree too deep" error; when `k ≥ 6` the
call for the manifest of `dep6` returns that error. -/
theorem getDependenciesRecursive_chain_depth {C : Type} (env : WalkEnv C) (dest : String)
    (root : commandPackage) (below : List commandPackage) (st : WalkState)
    (hcache : env.getPackageCachePath = .ok dest) (hchain : IsChain env dest (root :: below))
    (hdepth : st.depth = 0) :
    (below.length ≤ 5 → ∃ evs,
      (getDependenciesRecursive env st root).2 = .returned none ∧
      (getDependenciesRecursive env st root).1.log = st.log ++ evs ∧
      ∀ name, Event.tooDeep name ∉ evs) ∧
    (6 ≤ below.length → ∃ q, below[5]? = some q ∧
      Event.tooDeep q.Name ∈ (getDependenciesRecursive env st root).1.log) := by
  have hfuel : (MaxDepth - st.depth).toNat = 6 := by
    rw [hdepth]
    rfl
  unfold getDependenciesRecursive
  rw [hfuel]
  constructor
  · intro hlen
    obtain ⟨st1, evs, hres, hlog, hno⟩ := chain_within_bound env dest hcache below root st 6 hchain
      (by rw [hdepth]; simp only [MaxDepth]; push_cast; omega)
      (by rw [hdepth]; simp only [MaxDepth]; omega)
    exact ⟨evs, by rw [hres], by rw [hres]; exact hlog, hno⟩
  · intro hlen
    obtain ⟨q, hq, hmem, _⟩ := chain_beyond_bound env dest hcache below root st 6 0 hchain
      (by rw [hdepth]; rfl) (by omega) (by omega) (by rw [hdepth]; simp only [MaxDepth]; omega)
    exact ⟨q, hq, hmem⟩

theorem chainPackages_five_isChain :
    IsChain (sampleWalkEnv chainTags (chainManifests 5)) "cache" (chainPackages 5) := by
  refine ⟨⟨"dep1", "^1.0", ["1.0.0"], rfl, by decide, by decide, fun _ => rfl, fun _ => rfl⟩, ?_⟩
  refine ⟨⟨"dep2", "^1.0", ["1.0.0"], rfl, by decide, by decide, fun _ => rfl, fun _ => rfl⟩, ?_⟩
  refine ⟨⟨"dep3", "^1.0", ["1.0.0"], rfl, by decide, by decide, fun _ => rfl, fun _ => rfl⟩, ?_⟩
  refine ⟨⟨"dep4", "^1.0", ["1.0.0"], rfl, by decide, by decide, fun _ => rfl, fun _ => rfl⟩, ?_⟩
  refine ⟨⟨"dep5", "^1.0", ["1.0.0"], rfl, by decide, by decide, fun _ => rfl, fun _ => rfl⟩, ?_⟩
  rfl

/-- C15 (amended), on the chain `root → dep1 → … → dep5`: the root call returns
nil and logs no "dependency tree too deep" error. -/
theorem getDependenciesRecursive_chain_depth_witness :
    (sampleWalkEnv chainTags (chainManifests 5)).getPackageCachePath = .ok "cache" ∧
    IsChain (sampleWalkEnv chainTags (chainManifests 5)) "cache" (chainPackages 5) ∧
    initialState.depth = 0 ∧ (chainPackages 5).length = 6 ∧
    ∃ evs,
      (getDependenciesRecursive (sampleWalkEnv chainTags (chainManifests 5)) initialState
        chainRoot).2 = .returned none ∧
      (getDependenciesRecursive (sampleWalkEnv chainTags (chainManifests 5)) initialState
        chainRoot).1.log = initialState.log ++ evs ∧
      ∀ name, Event.tooDeep name ∉ evs :=
  ⟨rfl, chainPackages_five_isChain, rfl, by decide,
    (getDependenciesRecursive_chain_depth (sampleWalkEnv chainTags (chainManifests 5)) "cache"
      chainRoot ((chainPackages 5).tail) initialState rfl chainPackages_five_isChain rfl).1
      (by decide)⟩

theorem requirementBody_known {C : Type} (env : WalkEnv C)
    (rec : WalkState → commandPackage → WalkState × Outcome) (dest : String)
    (st : WalkState) (pkg : commandPackage) (err : Option String) (dep constraint : String)
    (versions : versionList)
    (hv : (∃ d, lookupDep st.dependencies (env.packageDir dest (env.githubize dep)) = some d ∧
        d.versions = versions) ∨
      (lookupDep st.dependencies (env.packageDir dest (env.githubize dep)) = none ∧
        getPackageVersionsFrom env.lib (env.listTags (env.githubize dep)) = (versions, none))) :
    ∃ st0 err0, requirementBody env rec dest st pkg err dep constraint =
      afterVersions env rec (env.packageDir dest (env.githubize dep)) st0 pkg err0 constraint
        versions := by
  rcases hv with ⟨d, hl, hd⟩ | ⟨hl, hf⟩
  · refine ⟨st, err, ?_⟩
    unfold requirementBody
    simp only [hl, hd]
  · refine ⟨st.record [.fetch (env.githubize dep)], none, ?_⟩
    unfold requirementBody
    simp only [hl, hf]

/-- C16, the behaviour of the code where the claim fails. For a requirement
that is not a runtime: whenever its goroutine reaches `errChan <- e`, the
enclosing call is blocked and returns nothing; and each of the four failures
named in the claim (fetching the versions, checking out the reference, reading
the manifest, the recursive call) makes the goroutine reach `errChan <- e`
with that same error `e`. Hence the only errors that a call of
`getDependenciesRecursive` returns are its own "dependency tree too deep"
error, when the counter was already at the bound on entry, and the error of
`getPackageCachePath`: never the error of a requirement. -/
theorem requirement_error_blocks {C : Type} (env : WalkEnv C)
    (rec : WalkState → commandPackage → WalkState × Outcome) (dest : String)
    (st : WalkState) (pkg : commandPackage) (err : Option String) (dep constraint : String)
    (rest : List (String × String)) (e : String) (hrt : isRuntime dep = false) :
    (∀ st1, requirementBody env rec dest st pkg err dep constraint = .sent st1 e →
      requirementsLoop env rec dest ((dep, constraint) :: rest) st pkg err = (st1, .blocked)) ∧
    (lookupDep st.dependencies (env.packageDir dest (env.githubize dep)) = none →
      (getPackageVersionsFrom env.lib (env.listTags (env.githubize dep))).2 = some e →
      ∃ st1, requirementBody env rec dest st pkg err dep constraint = .sent st1 e) ∧
    (∀ versions,
      ((∃ d, lookupDep st.dependencies (env.packageDir dest (env.githubize dep)) = some d ∧
          d.versions = versions) ∨
        (lookupDep st.dependencies (env.packageDir dest (env.githubize dep)) = none ∧
          getPackageVersionsFrom env.lib (env.listTags (env.githubize dep)) = (versions, none))) →
      ((checkoutRef env.git (workingRef env pkg constraint versions)
          (env.packageDir dest (env.githubize dep))).2 = some e →
        ∃ st1, requirementBody env rec dest st pkg err dep constraint = .sent st1 e) ∧
      ((checkoutRef env.git (workingRef env pkg constraint versions)
          (env.packageDir dest (env.githubize dep))).2 = none →
        env.readPackage (env.packageDir dest (env.githubize dep))
          (workingRef env pkg constraint versions) = .error e →
        ∃ st1, requirementBody env rec dest st pkg err dep constraint = .sent st1 e) ∧
      (∀ q, (checkoutRef env.git (workingRef env pkg constraint versions)
          (env.packageDir dest (env.githubize dep))).2 = none →
        env.readPackage (env.packageDir dest (env.githubize dep))
          (workingRef env pkg constraint versions) = .ok q →
        (∀ st3, (rec st3 q).2 = .returned (some e)) →
        ∃ st1, requirementBody env rec dest st pkg err dep constraint = .sent st1 e)) ∧
    (∀ st0 pkg0 e0, (getDependenciesRecursive env st0 pkg0).2 = .returned (some e0) →
      (MaxDepth ≤ st0.depth ∧ e0 = errTooDeep) ∨ env.getPackageCachePath = .error e0) := by
  refine ⟨?_, ?_, ?_, getDependenciesRecursive_error_origin env⟩
  · intro st1 h
    simp only [requirementsLoop, hrt, Bool.false_eq_true, if_false, h]
  · intro hl hf
    unfold requirementBody
    simp only [hl]
    cases hg : getPackageVersionsFrom env.lib (env.listTags (env.githubize dep)) with
    | mk vs oe =>
      rw [hg] at hf
      simp only at hf
      subst hf
      exact ⟨_, rfl⟩
  · intro versions hv
    obtain ⟨st0, err0, hbody⟩ := requirementBody_known env rec dest st pkg err dep constraint
      versions hv
    rw [hbody]
    refine ⟨?_, ?_, ?_⟩
    · intro hck
      exact afterVersions_checkout_fail env rec _ st0 pkg err0 constraint versions e hck
    · intro hck hrd
      exact afterVersions_read_fail env rec _ st0 pkg err0 constraint versions e hck hrd
    · intro q hck hrd hrec
      obtain ⟨st3, _, _, _, heq⟩ := afterVersions_rec env rec _ st0 pkg err0 constraint versions q
        hck hrd
      rw [heq]
      have h3 := hrec st3
      cases hr : rec st3 q with
      | mk st4 o =>
        rw [hr] at h3
        simp only at h3
        subst h3
        exact ⟨_, rfl⟩

/-- C16, at failing inputs. A root manifest whose only requirement `dep1` has
no repository: the goroutine reaches `errChan <- "repository not found"` and
the call never returns. The same happens when the checkout fails, when the
manifest cannot be read and when the nested call returns the "dependency tree
too deep" error. -/
theorem requirement_error_blocks_witness :
    isRuntime "dep1" = false ∧
    (∃ st1, requirementBody (sampleWalkEnv [] [])
      (getDependenciesRecursiveFuel (sampleWalkEnv [] []) 5) "cache" initialState chainRoot none
      "dep1" "^1.0" = .sent st1 "repository not found") ∧
    getDependenciesRecursive (sampleWalkEnv [] []) initialState chainRoot =
      ({ depth := 1, dependencies := [],
         log := [.enter "root" 1, .fetch "dep1", .send "repository not found"] }, .blocked) ∧
    (getDependenciesRecursive (failingCheckoutEnv 1) initialState chainRoot).2 = .blocked ∧
    (getDependenciesRecursive (failingCheckoutEnv 1) initialState chainRoot).1.log =
      [.enter "root" 1, .fetch "dep1", .add "cache/dep1" "^1.0", .resolve ["^1.0"] 5,
        .checkout "1.0.0" "cache/dep1", .send "object not found"] ∧
    (getDependenciesRecursive (sampleWalkEnv chainTags []) initialState chainRoot).2 = .blocked ∧
    (getDependenciesRecursive (sampleWalkEnv chainTags []) initialState chainRoot).1.log =
      [.enter "root" 1, .fetch "dep1", .add "cache/dep1" "^1.0", .resolve ["^1.0"] 5,
        .checkout "1.0.0" "cache/dep1", .read "cache/dep1",
        .send "package manifest not found"] ∧
    (getDependenciesRecursive (sampleWalkEnv chainTags (chainManifests 6)) initialState
      chainRoot).2 = .blocked ∧
    (getDependenciesRecursive (sampleWalkEnv chainTags (chainManifests 6)) initialState
      chainRoot).1.log.drop 36 =
      [.enter "dep6" 7, .tooDeep "dep6", .send "dependency tree too deep, unable to resolve"] :=
  ⟨by decide,
    (requirement_error_blocks (sampleWalkEnv [] [])
      (getDependenciesRecursiveFuel (sampleWalkEnv [] []) 5) "cache" initialState chainRoot none
      "dep1" "^1.0" [] "repository not found" (by decide)).2.1 (by decide) (by decide),
    by decide, by decide, by decide, by decide, by decide, by decide, by decide⟩

/-- C19. `isRuntime` is true exactly for the names whose lower-cased form is
`python`, `go`, `node`, `ruby` or `php`. A requirement with such a name is
skipped by the loop of the walker: the loop continues with the other
requirements in the same state, so nothing is fetched, no record is added,
nothing is checked out and there is no recursion. A requirement with any other
name is not skipped: the first call the loop makes for it, the fetch of its
versions or the registration of its constraint, is in the log. -/
theorem runtime_requirement_skipped {C : Type} (env : WalkEnv C) (fuel : Nat) (dest : String)
    (dep constraint : String) (rest : List (String × String)) (st : WalkState)
    (pkg : commandPackage) (err : Option String) :
    (isRuntime dep = true ↔
      dep.toLower = "python" ∨ dep.toLower = "go" ∨ dep.toLower = "node" ∨
        dep.toLower = "ruby" ∨ dep.toLower = "php") ∧
    (isRuntime dep = true →
      requirementsLoop env (getDependenciesRecursiveFuel env fuel) dest
          ((dep, constraint) :: rest) st pkg err =
        requirementsLoop env (getDependenciesRecursiveFuel env fuel) dest rest st pkg err) ∧
    (isRuntime dep = false →
      ∃ ev, (ev = Event.fetch (env.githubize dep) ∨
          ev = Event.add (env.packageDir dest (env.githubize dep)) constraint) ∧
        (st.log ++ [ev]) <+:
          (requirementsLoop env (getDependenciesRecursiveFuel env fuel) dest
            ((dep, constraint) :: rest) st pkg err).1.log) := by
  refine ⟨isRuntime_iff dep, ?_, ?_⟩
  · intro h
    simp only [requirementsLoop, h, if_true]
  · intro h
    have hrec := getDependenciesRecursiveFuel_log env fuel
    obtain ⟨ev, hev, hpre⟩ := requirementBody_log env (getDependenciesRecursiveFuel env fuel) hrec
      dest st pkg err dep constraint
    refine ⟨ev, hev, ?_⟩
    simp only [requirementsLoop, h, Bool.false_eq_true, if_false]
    split
    · rename_i st1 pkg1 err1 heq
      rw [heq] at hpre
      exact hpre.trans (requirementsLoop_log env _ hrec dest rest st1 pkg1 err1)
    · rename_i st1 e heq
      rw [heq] at hpre
      exact hpre
    · rename_i st1 o heq
      rw [heq] at hpre
      exact hpre

/-- C19, examples: the requirement `PHP` is skipped, the requirement `A` is
not. -/
theorem runtime_requirement_skipped_witness :
    isRuntime "PHP" = true ∧ isRuntime "A" = false ∧
    requirementsLoop (sampleWalkEnv twoTags twoManifests)
        (getDependenciesRecursiveFuel (sampleWalkEnv twoTags twoManifests) 5) "cache"
        [("PHP", "7"), ("A", "^1.0")] initialState twoRoot none =
      requirementsLoop (sampleWalkEnv twoTags twoManifests)
        (getDependenciesRecursiveFuel (sampleWalkEnv twoTags twoManifests) 5) "cache"
        [("A", "^1.0")] initialState twoRoot none ∧
    (requirementsLoop (sampleWalkEnv twoTags twoManifests)
        (getDependenciesRecursiveFuel (sampleWalkEnv twoTags twoManifests) 5) "cache"
        [("PHP", "7"), ("A", "^1.0")] initialState twoRoot none).1.log =
      [.fetch "A", .add "cache/A" "^1.0", .resolve ["^1.0"] 5, .checkout "1.1.0" "cache/A",
        .read "cache/A", .enter "A" 1] :=
  ⟨by decide, by decide,
    (runtime_requirement_skipped (sampleWalkEnv twoTags twoManifests) 5 "cache" "PHP" "7"
      [("A", "^1.0")] initialState twoRoot none).2.1 (by decide),
    by decide⟩

/-- C20, at the failing input: the root manifest, at floor stable, requires `A`
and then `B`; the manifest of `A` has `minimum-stability` `alpha`. Line 161
assigns the manifest of `A` to the captured variable `pkg`, so `B` is resolved
with the floor alpha (2): it is checked out at `1.0.0-beta.1`, which the floor
of the root manifest excludes. -/
theorem sibling_floor_replaces_own_floor :
    twoRoot.GetMinimumStability = ReleaseTypeStable ∧
    (manifest "A" [] "alpha").GetMinimumStability = ReleaseTypeAlpha ∧
    getDependenciesRecursive (sampleWalkEnv floorTags floorManifests) initialState twoRoot =
      ({ depth := 3,
         dependencies :=
           [("cache/A", { versions := getPackageVersions sampleLib ["1.0.0"],
                          constraints := ["^1.0"] }),
            ("cache/B", { versions := getPackageVersions sampleLib ["1.0.0-beta.1"],
                          constraints := ["^1.0"] })],
         log := [.enter "root" 1,
           .fetch "A", .add "cache/A" "^1.0", .resolve ["^1.0"] 5, .checkout "1.0.0" "cache/A",
           .read "cache/A", .enter "A" 2,
           .fetch "B", .add "cache/B" "^1.0", .resolve ["^1.0"] 2,
           .checkout "1.0.0-beta.1" "cache/B", .read "cache/B", .enter "B" 3] },
        .returned none) ∧
    workingRef (sampleWalkEnv floorTags floorManifests) twoRoot "^1.0"
      (getPackageVersions sampleLib ["1.0.0-beta.1"]) = "^1.0" := by
  refine ⟨by decide, by decide, by decide, by decide⟩

/-! ## Canonical order within bounds: claim -/

theorem mkVersion_key_exact (ver : SemVer) (h0 : 0 ≤ prereleaseOrdinal ver.pre)
    (hfit : (ver.major : Int) * 100000 + (ver.minor : Int) * 10000 + (ver.patch : Int) * 1000 +
      (stabilityOf ver.pre * 10 + prereleaseOrdinal ver.pre) < 18446744073709551616) :
    ((mkVersion ver).canonical : Int) =
      (ver.major : Int) * 100000 + (ver.minor : Int) * 10000 + (ver.patch : Int) * 1000 +
        (stabilityOf ver.pre * 10 + prereleaseOrdinal ver.pre) := by
  have hs := stabilityOf_range ver.pre
  have hc := mkVersion_canonical ver
  have hst : (mkVersion ver).stability = stabilityOf ver.pre := rfl
  rw [hst] at hc
  rw [hc]
  omega

/-- C21 (as stated, refuted): the tags `184467440737096.0.0` and `1.0.0` give
two candidates whose minor, patch and prerelease ordinal are 0; the key of the
first wraps around `2^64` to 48434, below the key 100050 of the second,
although its major is the greater. -/
theorem canonical_order_wraps_for_large_major :
    (getPackageVersions sampleLib ["184467440737096.0.0", "1.0.0"]).map
        (fun v => (v.semver.major, v.semver.minor, v.semver.patch, v.stability,
          prereleaseOrdinal v.semver.pre, v.canonical)) =
      [(1, 0, 0, 5, 0, 100050), (184467440737096, 0, 0, 5, 0, 48434)] ∧
    ¬ ((mkVersion ⟨184467440737096, 0, 0, "", ""⟩).canonical <
          (mkVersion ⟨1, 0, 0, "", ""⟩).canonical ↔
        (184467440737096 < 1 ∨ (184467440737096 = 1 ∧
          ((0 : Nat) < 0 ∨ ((0 : Nat) = 0 ∧ ((0 : Nat) < 0 ∨ ((0 : Nat) = 0 ∧
            ((mkVersion ⟨184467440737096, 0, 0, "", ""⟩).stability <
                (mkVersion ⟨1, 0, 0, "", ""⟩).stability ∨
              ((mkVersion ⟨184467440737096, 0, 0, "", ""⟩).stability =
                  (mkVersion ⟨1, 0, 0, "", ""⟩).stability ∧
                prereleaseOrdinal "" < prereleaseOrdinal ""))))))))) := by
  refine ⟨by decide, ?_⟩
  intro h
  have hlt : (mkVersion ⟨184467440737096, 0, 0, "", ""⟩).canonical <
      (mkVersion ⟨1, 0, 0, "", ""⟩).canonical := by decide
  rcases h.mp hlt with h1 | ⟨h1, _⟩
  · exact absurd h1 (by decide)
  · exact absurd h1 (by decide)

/-- C21 (amended). For every two candidates whose minor, patch and prerelease
ordinal are all between 0 and 9 and whose key
`major*100000 + minor*10000 + patch*1000 + stability*10 + ordinal` is below
`2^64` (no 64-bit overflow; this holds for every major up to
184467440737094), the canonical key of the first is less than that of the second
if and only if the tuple (major, minor, patch, stability tier, ordinal) of the
first is lexicographically less than that of the second. -/
theorem canonical_order_agrees_within_bounds {C : Type} (lib : SemverLib C)
    (tags : List String) (v w : version)
    (hv : v ∈ getPackageVersions lib tags) (hw : w ∈ getPackageVersions lib tags)
    (hvb : v.semver.minor ≤ 9 ∧ v.semver.patch ≤ 9 ∧
      0 ≤ prereleaseOrdinal v.semver.pre ∧ prereleaseOrdinal v.semver.pre ≤ 9)
    (hwb : w.semver.minor ≤ 9 ∧ w.semver.patch ≤ 9 ∧
      0 ≤ prereleaseOrdinal w.semver.pre ∧ prereleaseOrdinal w.semver.pre ≤ 9)
    (hvfit : (v.semver.major : Int) * 100000 + (v.semver.minor : Int) * 10000 +
      (v.semver.patch : Int) * 1000 + (v.stability * 10 + prereleaseOrdinal v.semver.pre) <
        (2 : Int) ^ 64)
    (hwfit : (w.semver.major : Int) * 100000 + (w.semver.minor : Int) * 10000 +
      (w.semver.patch : Int) * 1000 + (w.stability * 10 + prereleaseOrdinal w.semver.pre) <
        (2 : Int) ^ 64) :
    (v.canonical < w.canonical ↔
      (v.semver.major < w.semver.major ∨ (v.semver.major = w.semver.major ∧
        (v.semver.minor < w.semver.minor ∨ (v.semver.minor = w.semver.minor ∧
          (v.semver.patch < w.semver.patch ∨ (v.semver.patch = w.semver.patch ∧
            (v.stability < w.stability ∨ (v.stability = w.stability ∧
              prereleaseOrdinal v.semver.pre < prereleaseOrdinal w.semver.pre))))))))) ∧
    (∀ major : Nat, major ≤ 184467440737094 →
      (major : Int) * 100000 + 9 * 10000 + 9 * 1000 + (5 * 10 + 9) < (2 : Int) ^ 64) := by
  refine ⟨?_, fun major hm => by norm_num; omega⟩
  obtain ⟨_, _, a, _, rfl⟩ := (mem_collectVersions lib tags v).mp ((mem_sortSlice _ _).mp hv)
  obtain ⟨_, _, b, _, rfl⟩ := (mem_collectVersions lib tags w).mp ((mem_sortSlice _ _).mp hw)
  have ha : (mkVersion a).semver = a := rfl
  have hb : (mkVersion b).semver = b := rfl
  have hsa : (mkVersion a).stability = stabilityOf a.pre := rfl
  have hsb : (mkVersion b).stability = stabilityOf b.pre := rfl
  rw [ha] at hvb hvfit
  rw [hb] at hwb hwfit
  rw [hsa] at hvfit
  rw [hsb] at hwfit
  rw [ha, hb, hsa, hsb]
  norm_num at hvfit hwfit
  have ka := mkVersion_key_exact a hvb.2.2.1 hvfit
  have kb := mkVersion_key_exact b hwb.2.2.1 hwfit
  have ra := stabilityOf_range a.pre
  have rb := stabilityOf_range b.pre
  obtain ⟨h2, h3, h4, h5⟩ := hvb
  obtain ⟨g2, g3, g4, g5⟩ := hwb
  generalize (mkVersion a).canonical = x at ka ⊢
  generalize (mkVersion b).canonical = y at kb ⊢
  generalize stabilityOf a.pre = sa at *
  generalize stabilityOf b.pre = sb at *
  generalize prereleaseOrdinal a.pre = oa at *
  generalize prereleaseOrdinal b.pre = ob at *
  constructor
  · intro h
    omega
  · intro h
    omega

/-- C21 (amended), on the tags `1.2.3-rc.1` and `1.2.3`: the rc candidate has
the smaller key (123041 against 123050) and the smaller tuple (tier 4 against
tier 5). -/
theorem canonical_order_agrees_within_bounds_witness :
    (mkVersion ⟨1, 2, 3, "rc.1", ""⟩ ∈ getPackageVersions sampleLib ["1.2.3", "1.2.3-rc.1"] ∧
      mkVersion ⟨1, 2, 3, "", ""⟩ ∈ getPackageVersions sampleLib ["1.2.3", "1.2.3-rc.1"] ∧
      (mkVersion ⟨1, 2, 3, "rc.1", ""⟩).canonical = 123041 ∧
      (mkVersion ⟨1, 2, 3, "", ""⟩).canonical = 123050) ∧
    ((mkVersion ⟨1, 2, 3, "rc.1", ""⟩).canonical < (mkVersion ⟨1, 2, 3, "", ""⟩).canonical ↔
      ((mkVersion ⟨1, 2, 3, "rc.1", ""⟩).semver.major < (mkVersion ⟨1, 2, 3, "", ""⟩).semver.major ∨
        ((mkVersion ⟨1, 2, 3, "rc.1", ""⟩).semver.major =
            (mkVersion ⟨1, 2, 3, "", ""⟩).semver.major ∧
          ((mkVersion ⟨1, 2, 3, "rc.1", ""⟩).semver.minor <
              (mkVersion ⟨1, 2, 3, "", ""⟩).semver.minor ∨
            ((mkVersion ⟨1, 2, 3, "rc.1", ""⟩).semver.minor =
                (mkVersion ⟨1, 2, 3, "", ""⟩).semver.minor ∧
              ((mkVersion ⟨1, 2, 3, "rc.1", ""⟩).semver.patch <
                  (mkVersion ⟨1, 2, 3, "", ""⟩).semver.patch ∨
                ((mkVersion ⟨1, 2, 3, "rc.1", ""⟩).semver.patch =
                    (mkVersion ⟨1, 2, 3, "", ""⟩).semver.patch ∧
                  ((mkVersion ⟨1, 2, 3, "rc.1", ""⟩).stability <
                      (mkVersion ⟨1, 2, 3, "", ""⟩).stability ∨
                    ((mkVersion ⟨1, 2, 3, "rc.1", ""⟩).stability =
                        (mkVersion ⟨1, 2, 3, "", ""⟩).stability ∧
                      prereleaseOrdinal (mkVersion ⟨1, 2, 3, "rc.1", ""⟩).semver.pre <
                        prereleaseOrdinal (mkVersion ⟨1, 2, 3, "", ""⟩).semver.pre))))))))) :=
  ⟨⟨by decide, by decide, by decide, by decide⟩,
    (canonical_order_agrees_within_bounds sampleLib ["1.2.3", "1.2.3-rc.1"]
      (mkVersion ⟨1, 2, 3, "rc.1", ""⟩) (mkVersion ⟨1, 2, 3, "", ""⟩) (by decide) (by decide)
      (by decide) (by decide) (by decide) (by decide)).1⟩

end AkamaiCli
